import Mathlib

/-! # movement-captcha: generation, layout and validation core of `src/main.js`

A shallow embedding of the pure functions of `src/main.js`.

Conventions of the embedding:

* A JavaScript string is a Lean `String`, a sequence of Unicode scalar values;
  `[...str]` is `str.toList` and `chars.join("")` is `String.mk chars`.
* `String.prototype.toUpperCase` maps every code point through the Unicode
  upper-case table of the host, which is not part of the repository; the table
  is a parameter `upper : Char → List Char` (one code point may expand to
  several, as `ß` does).  `asciiUpper` is that table on the ASCII range.
* Numbers are rationals (`ℚ`): exact arithmetic, no rounding; a decimal literal
  stands for its decimal value.  Where a remainder or a quotient by a computed
  number can fail to be a number, the value is a `JSNumber`, a rational or `NaN`.
* `Math.sin`, `Math.cos`, `Math.sqrt`, `Math.hypot` and `Math.PI` belong to the
  host; they are the fields of a parameter `M : HostMath`.
* `Math.random()` is a stream `rand : ℕ → Draw` of values of `[0, 1)`; the
  `k`-th call of a function reads `rand k`.
-/

namespace MovementCaptcha

/-! ## Validation (`main.js` 459-496) -/

/-- The code points that ECMAScript treats as WhiteSpace or LineTerminator: the ones
`String.prototype.trim` strips and the regular expression class `\s` matches. -/
def isWhiteSpace (c : Char) : Bool :=
  let n := c.toNat
  n == 0x09 || n == 0x0A || n == 0x0B || n == 0x0C || n == 0x0D || n == 0x20 ||
  n == 0xA0 || n == 0x1680 || (0x2000 ≤ n && n ≤ 0x200A) || n == 0x2028 ||
  n == 0x2029 || n == 0x202F || n == 0x205F || n == 0x3000 || n == 0xFEFF

/-- The method `String.prototype.trim`: strips leading and trailing white space. -/
def trim (s : List Char) : List Char :=
  (s.dropWhile isWhiteSpace).rdropWhile isWhiteSpace

/-- The method `String.prototype.toUpperCase` over the upper-case table `upper`. -/
def toUpperCase (upper : Char → List Char) (s : List Char) : List Char :=
  s.flatMap upper

/-- The upper-case table on the ASCII range: `a`-`z` go to `A`-`Z`. -/
def asciiUpper (c : Char) : List Char := [c.toUpper]

/-- `normalizeInput(str)`:
`String(str).trim().toUpperCase().replace(/\s+/g, "")`. -/
def normalizeInput (upper : Char → List Char) (str : String) : String :=
  String.mk ((toUpperCase upper (trim str.toList)).filter (fun c => !isWhiteSpace c))

/-- The UTF-16 code units of a code point. -/
def utf16 (c : Char) : List Nat :=
  if c.toNat < 0x10000 then [c.toNat]
  else [0xD800 + (c.toNat - 0x10000) / 0x400, 0xDC00 + (c.toNat - 0x10000) % 0x400]

/-- Comparison of two strings by their code units, as the default comparator of
`Array.prototype.sort` does: `true` when the first does not come after the second. -/
def codeUnitsLe : List Nat → List Nat → Bool
  | [], _ => true
  | _ :: _, [] => false
  | a :: as, b :: bs => a < b || (a == b && codeUnitsLe as bs)

/-- The order in which `sort()` without comparator puts two one-code-point strings. -/
def sortLe (a b : Char) : Prop := codeUnitsLe (utf16 a) (utf16 b) = true

instance : DecidableRel sortLe := fun a b =>
  inferInstanceAs (Decidable (codeUnitsLe (utf16 a) (utf16 b) = true))

/-- The call `[...str].sort()`: ascending by UTF-16 code units. -/
def jsSort (chars : List Char) : List Char := chars.insertionSort sortLe

/-- `validateSolution(userInput, expectedSolution)`. -/
def validateSolution (upper : Char → List Char) (userInput expectedSolution : String) : Bool :=
  let a := String.mk (jsSort (normalizeInput upper userInput).toList)
  let b := String.mk (jsSort expectedSolution.toList)
  decide (a = b)

/-- The table `counts` after the first loop of `getInvalidIndices`: a missing key reads
as `0` (`counts[c] || 0`). -/
def countChars (expectedSolution : List Char) : Char → Nat :=
  expectedSolution.foldl (fun counts c => Function.update counts c (counts c + 1)) (fun _ => 0)

/-- The second loop of `getInvalidIndices`: the values pushed on `invalid`, in order. -/
def invalidLoop : List Char → (Char → Nat) → List Bool
  | [], _ => []
  | c :: rest, counts =>
    if 0 < counts c then false :: invalidLoop rest (Function.update counts c (counts c - 1))
    else true :: invalidLoop rest counts

/-- `getInvalidIndices(userInput, expectedSolution)`. -/
def getInvalidIndices (userInput expectedSolution : String) : List Bool :=
  invalidLoop userInput.toList (countChars expectedSolution.toList)

/-! ## Alphabet and generation (`main.js` 6-32) -/

/-- The constant `CLEAN_ALPHABET`. -/
def CLEAN_ALPHABET : String := "ABCDEFGHJKMNPQRSTUVWXYZ23456789"

/-- `getCleanAlphabet()`. -/
def getCleanAlphabet : String := CLEAN_ALPHABET

/-- A value returned by `Math.random()`: a number of `[0, 1)`. -/
structure Draw where
  /-- The number drawn. -/
  val : ℚ
  /-- It is not negative. -/
  nonneg : 0 ≤ val
  /-- It is below one. -/
  lt_one : val < 1

/-- `Math.floor(u * n)` for a draw `u` and a positive length `n`: an index below `n`. -/
def Draw.index (u : Draw) (n : Nat) (h : 0 < n) : Fin n :=
  ⟨⌊u.val * (n : ℚ)⌋₊, by
    have hn : (0 : ℚ) < n := by exact_mod_cast h
    have h1 : u.val * n < n := by
      calc u.val * n < 1 * n := mul_lt_mul_of_pos_right u.lt_one hn
        _ = n := one_mul _
    exact (Nat.floor_lt (mul_nonneg u.nonneg hn.le)).mpr h1⟩

/-- The draw `0`. -/
def Draw.zero : Draw := ⟨0, le_refl 0, zero_lt_one⟩

/-- The loop of `pickRandom`: `fuel` is `n - i`, the iterations still allowed by `i < n`;
`rand k` is the next draw; the result lists the values pushed on `result`, in order.
`copy.splice(idx, 1)[0]` reads `copy[idx]` and removes it from `copy`. -/
def pickRandomLoop {α : Type} (rand : Nat → Draw) : Nat → Nat → List α → List α
  | 0, _, _ => []
  | fuel + 1, k, copy =>
    if h : 0 < copy.length then
      let idx := (rand k).index copy.length h
      copy.get idx :: pickRandomLoop rand fuel (k + 1) (copy.eraseIdx idx)
    else []

/-- `pickRandom(arr, n)` for a count `n` that is a natural number. -/
def pickRandom {α : Type} (rand : Nat → Draw) (arr : List α) (n : Nat) : List α :=
  pickRandomLoop rand n 0 arr

/-- `generateSolution(length, alphabet)`. -/
def generateSolution (rand : Nat → Draw) (length : Nat) (alphabet : String) : String :=
  String.mk (pickRandom rand alphabet.toList length)

/-- `generateNoise(count, alphabet, excludeChars)`; `excludeSet.has(c)` is membership in
the characters of `excludeChars`. -/
def generateNoise (rand : Nat → Draw) (count : Nat) (alphabet excludeChars : String) :
    List Char :=
  let available := alphabet.toList.filter (fun c => !decide (c ∈ excludeChars.toList))
  pickRandom rand available count

/-! ## Layout (`main.js` 34-88) -/

/-- The constant `CHAR_SIZE`. -/
def CHAR_SIZE : ℚ := 20

/-- The content box `{ width, height, padding }`. -/
structure Box where
  /-- Usable width. -/
  width : ℚ
  /-- Usable height. -/
  height : ℚ
  /-- Padding around the usable rectangle. -/
  padding : ℚ

/-- A point `{ x, y }`. -/
structure Point where
  /-- Abscissa. -/
  x : ℚ
  /-- Ordinate. -/
  y : ℚ

/-- `randomPositionInBox(box, charSize)`; `u` is the draw of the `x` line and `v` the draw
of the `y` line, in the order the calls are made. -/
def randomPositionInBox (box : Box) (charSize : ℚ) (u v : Draw) : Point :=
  let margin := charSize / 2
  let maxX := max 0 (box.width - charSize - margin)
  let maxY := max 0 (box.height - charSize - margin)
  { x := box.padding + margin + u.val * maxX,
    y := box.padding + margin + v.val * maxY }

/-- A placement `{ char, x, y, isSolution, index }`. -/
structure Placement where
  /-- The character shown. -/
  char : Char
  /-- Abscissa of the start position. -/
  x : ℚ
  /-- Ordinate of the start position. -/
  y : ℚ
  /-- Whether the character belongs to the solution. -/
  isSolution : Bool
  /-- Index within the solution group or within the noise group. -/
  index : Nat

/-- The destructuring swap `[all[i], all[j]] = [all[j], all[i]]`.  Both indices are within
the array wherever the shuffle calls it; otherwise the list is returned as it is. -/
def swap {α : Type} (all : List α) (i j : Nat) : List α :=
  match all[i]?, all[j]? with
  | some a, some b => (all.set i b).set j a
  | _, _ => all

/-- The shuffle loop of `computePlacements`, `for (let i = all.length - 1; i > 0; i--)`:
the first argument is the current `i`, `rand k` is the next draw, and
`j = Math.floor(Math.random() * (i + 1))`. -/
def shuffleLoop {α : Type} (rand : Nat → Draw) : Nat → Nat → List α → List α
  | 0, _, all => all
  | i + 1, k, all =>
    shuffleLoop rand i (k + 1) (swap all (i + 1) ((rand k).index (i + 1 + 1) (Nat.succ_pos _)))

/-- The placement loop of `computePlacements`, `for (const { char, isSolution } of all)`:
`rand k` is the next draw, `solutionIndex` and `noiseIndex` are the running counters; the
result lists the placements pushed, in order. -/
def placeLoop (rand : Nat → Draw) (box : Box) :
    List (Char × Bool) → Nat → Nat → Nat → List Placement
  | [], _, _, _ => []
  | (char, isSolution) :: rest, k, solutionIndex, noiseIndex =>
    let pos := randomPositionInBox box CHAR_SIZE (rand k) (rand (k + 1))
    { char := char, x := pos.x, y := pos.y, isSolution := isSolution,
      index := if isSolution then solutionIndex else noiseIndex } ::
    placeLoop rand box rest (k + 2)
      (if isSolution then solutionIndex + 1 else solutionIndex)
      (if isSolution then noiseIndex else noiseIndex + 1)

/-- The array `all` of `computePlacements` before the shuffle. -/
def allEntries (solution : String) (noise : List Char) : List (Char × Bool) :=
  solution.toList.map (fun c => (c, true)) ++ noise.map (fun c => (c, false))

/-- `computePlacements(solution, noise, box)`: the shuffle reads the first
`all.length - 1` draws, the placement loop the following ones. -/
def computePlacements (rand : Nat → Draw) (solution : String) (noise : List Char)
    (box : Box) : List Placement :=
  let all := allEntries solution noise
  let shuffled := shuffleLoop rand (all.length - 1) 0 all
  placeLoop rand box shuffled (all.length - 1) 0 0

/-! ## Movement paths (`main.js` 90-364) -/

/-- The functions and the constant of the host object `Math` that the paths call. -/
structure HostMath where
  /-- `Math.sin`. -/
  sin : ℚ → ℚ
  /-- `Math.cos`. -/
  cos : ℚ → ℚ
  /-- `Math.sqrt`. -/
  sqrt : ℚ → ℚ
  /-- `Math.hypot` of two arguments. -/
  hypot : ℚ → ℚ → ℚ
  /-- `Math.PI`. -/
  PI : ℚ

/-- A crude host, for evaluating on concrete inputs the paths that do not call the host
(square, z, matrix). -/
def sampleHost : HostMath :=
  { sin := fun _ => 0, cos := fun _ => 1, sqrt := fun _ => 2, hypot := fun a b => |a| + |b|,
    PI := 3 }

/-- Rounding towards zero, the integer quotient behind the operator `%`. -/
def trunc (q : ℚ) : ℤ := if 0 ≤ q then ⌊q⌋ else ⌈q⌉

/-- The remainder `a % b` for a divisor `b` that is not zero: it has the sign of `a`. -/
def fmod (a b : ℚ) : ℚ := a - b * (trunc (a / b) : ℚ)

/-- A number of the path code: a rational, or `NaN`. -/
inductive JSNumber where
  /-- A finite number. -/
  | num (q : ℚ)
  /-- The value `NaN`. -/
  | nan
  deriving DecidableEq

/-- `a + b`; `NaN` when an operand is `NaN`. -/
def JSNumber.add : JSNumber → JSNumber → JSNumber
  | .num a, .num b => .num (a + b)
  | _, _ => .nan

/-- `a - b`; `NaN` when an operand is `NaN`. -/
def JSNumber.sub : JSNumber → JSNumber → JSNumber
  | .num a, .num b => .num (a - b)
  | _, _ => .nan

/-- `a * b`; `NaN` when an operand is `NaN`. -/
def JSNumber.mul : JSNumber → JSNumber → JSNumber
  | .num a, .num b => .num (a * b)
  | _, _ => .nan

/-- `a % b`; `NaN` when an operand is `NaN` or when `b` is zero. -/
def JSNumber.rem : JSNumber → JSNumber → JSNumber
  | .num a, .num b => if b = 0 then .nan else .num (fmod a b)
  | _, _ => .nan

/-- `a / b`; `NaN` when an operand is `NaN`, and no finite number when `b` is zero: `0 / 0`
is `NaN`, and the infinity that another quotient by zero gives is not told apart from it,
since the code only adds to it and multiplies it. -/
def JSNumber.div : JSNumber → JSNumber → JSNumber
  | .num a, .num b => if b = 0 then .nan else .num (a / b)
  | _, _ => .nan

/-- `a < b`; `false` when an operand is `NaN`. -/
def JSNumber.lt : JSNumber → JSNumber → Bool
  | .num a, .num b => decide (a < b)
  | _, _ => false

instance : Add JSNumber := ⟨JSNumber.add⟩

instance : Sub JSNumber := ⟨JSNumber.sub⟩

instance : Mul JSNumber := ⟨JSNumber.mul⟩

instance : Div JSNumber := ⟨JSNumber.div⟩

/-- A point `{ x, y }` returned by a path function. -/
structure JSPoint where
  /-- Abscissa. -/
  x : JSNumber
  /-- Ordinate. -/
  y : JSNumber
  deriving DecidableEq

/-- `getCirclePath(radius, centerX, centerY)`. -/
def getCirclePath (M : HostMath) (radius centerX centerY : ℚ) (t : ℚ) : JSPoint :=
  let angle := t * 2 * M.PI
  { x := .num (centerX + radius * M.cos angle),
    y := .num (centerY + radius * M.sin angle) }

/-- `getSquarePath(size, centerX, centerY)`. -/
def getSquarePath (size centerX centerY : ℚ) (t : ℚ) : JSPoint :=
  let half := size / 2
  let perimeter := 4 * half * 2
  let d := JSNumber.rem (.num (t * perimeter)) (.num perimeter)
  if d.lt (.num (half * 2)) then
    { x := .num (centerX - half) + d, y := .num (centerY - half) }
  else
    let d := d - .num (half * 2)
    if d.lt (.num (half * 2)) then
      { x := .num (centerX + half), y := .num (centerY - half) + d }
    else
      let d := d - .num (half * 2)
      if d.lt (.num (half * 2)) then
        { x := .num (centerX + half) - d, y := .num (centerY + half) }
      else
        let d := d - .num (half * 2)
        { x := .num (centerX - half), y := .num (centerY + half) - d }

/-- `dist(a, b)`. -/
def dist (M : HostMath) (a b : Point) : ℚ := M.hypot (b.x - a.x) (b.y - a.y)

/-- `lerp(a, b, t)`. -/
def lerp (a b : Point) (t : JSNumber) : JSPoint :=
  { x := .num a.x + .num (b.x - a.x) * t, y := .num a.y + .num (b.y - a.y) * t }

/-- `getTrianglePath(size, centerX, centerY)`. -/
def getTrianglePath (M : HostMath) (size centerX centerY : ℚ) (t : ℚ) : JSPoint :=
  let h := (size * M.sqrt 3) / 2
  let top : Point := { x := centerX, y := centerY - (h * 2) / 3 }
  let left : Point := { x := centerX - size / 2, y := centerY + h / 3 }
  let right : Point := { x := centerX + size / 2, y := centerY + h / 3 }
  let seg1 := dist M top left
  let seg2 := dist M left right
  let seg3 := dist M right top
  let total := seg1 + seg2 + seg3
  let d := JSNumber.rem (.num (t * total)) (.num total)
  if d.lt (.num seg1) then lerp top left (d / .num seg1)
  else
    let d := d - .num seg1
    if d.lt (.num seg2) then lerp left right (d / .num seg2)
    else
      let d := d - .num seg2
      lerp right top (d / .num seg3)

/-- `getZPath(size, centerX, centerY)`. -/
def getZPath (size centerX centerY : ℚ) (t : ℚ) : JSPoint :=
  let half := size / 2
  let s := fmod (t * 3) 3
  if s < 1 then
    lerp { x := centerX - half, y := centerY - half }
      { x := centerX + half, y := centerY - half } (.num s)
  else if s < 2 then
    lerp { x := centerX + half, y := centerY - half }
      { x := centerX - half, y := centerY + half } (.num (s - 1))
  else
    lerp { x := centerX - half, y := centerY + half }
      { x := centerX + half, y := centerY + half } (.num (s - 2))

/-- `getFigure8Path(size, centerX, centerY)`. -/
def getFigure8Path (M : HostMath) (size centerX centerY : ℚ) (t : ℚ) : JSPoint :=
  let half := size / 2
  let angle := t * 2 * M.PI
  { x := .num (centerX + half * M.sin angle),
    y := .num (centerY + half * M.sin (2 * angle)) }

/-- `getInfinityPath(size, centerX, centerY)`; `denom` is at least one, so the quotients
are numbers. -/
def getInfinityPath (M : HostMath) (size centerX centerY : ℚ) (t : ℚ) : JSPoint :=
  let half := size / 2
  let angle := t * 2 * M.PI
  let denom := 1 + M.sin angle ^ 2
  { x := .num (centerX + half * (M.cos angle / denom)),
    y := .num (centerY + half * ((M.sin angle * M.cos angle) / denom)) }

/-- `getVibratePath(size, centerX, centerY)`. -/
def getVibratePath (M : HostMath) (size centerX centerY : ℚ) (t : ℚ) : JSPoint :=
  let half := size / 2
  { x := .num (centerX + half * M.sin (t * 2 * M.PI * 3)),
    y := .num (centerY + half * M.sin (t * 2 * M.PI * 4)) }

/-- `applyDirection(t, phase, direction)`. -/
def applyDirection (t phase : ℚ) (direction : String) : ℚ :=
  let normalized := fmod (t + phase) 1
  if direction == "counter" then 1 - normalized else normalized

/-- The local function `seededRandom(seed)` of the teleportation mode. -/
def seededRandom (M : HostMath) (seed : ℚ) : ℚ :=
  let x := M.sin seed * 10000
  x - (⌊x⌋ : ℚ)

/-- `getPathByType(type, centerX, centerY, size, box, phase, index, direction)`. -/
def getPathByType (M : HostMath) (type : String) (centerX centerY size : ℚ) (box : Box)
    (phase : ℚ) (index : Nat) (direction : String) : ℚ → JSPoint :=
  if type == "random" then
    let seed := (index : ℚ) * 1234.5678
    let amp := size
    let dir : ℚ := if direction == "counter" then -1 else 1
    let nX : ℚ := 3
    let nY : ℚ := 2
    fun t =>
      let effectiveT := applyDirection t phase direction
      let angleX := seed + dir * effectiveT * 2 * M.PI * nX
      let angleY := seed * 1.3 + dir * effectiveT * 2 * M.PI * nY
      { x := .num (centerX + (M.sin angleX * 0.5 + 0.5) * amp * 2 - amp),
        y := .num (centerY + (M.cos angleY * 0.5 + 0.5) * amp * 2 - amp) }
  else if type == "matrix" then
    let speed := 0.3 + ((index % 7 : Nat) : ℚ) * 0.1
    let innerHeight := box.height
    let dir : ℚ := if direction == "counter" then -1 else 1
    fun t =>
      let effectiveT := applyDirection t phase direction
      let offset := dir * effectiveT * speed * innerHeight
      let y := JSNumber.num box.padding +
        JSNumber.rem
          (JSNumber.rem (.num (centerY - box.padding + offset)) (.num innerHeight)
            + .num innerHeight)
          (.num innerHeight)
      { x := .num centerX, y := y }
  else if type == "teleportation" then
    let margin := CHAR_SIZE / 2
    let minX := box.padding + margin
    let maxX := box.padding + box.width - margin
    let minY := box.padding + margin
    let maxY := box.padding + box.height - margin
    let numJumps : ℚ := 8
    fun t =>
      let effectiveT := applyDirection t phase direction
      let step := fmod (⌊effectiveT * numJumps⌋ : ℚ) numJumps
      let seed1 := (index : ℚ) * 7.3 + step * 11.7 + phase * 100
      let seed2 := (index : ℚ) * 13.1 + step * 17.9 + phase * 100 + 1
      { x := .num (minX + seededRandom M seed1 * (maxX - minX)),
        y := .num (minY + seededRandom M seed2 * (maxY - minY)) }
  else
    let pathFn : ℚ → JSPoint :=
      if type == "circle" then getCirclePath M (size / 2) centerX centerY
      else if type == "square" then getSquarePath size centerX centerY
      else if type == "triangle" then getTrianglePath M size centerX centerY
      else if type == "z" then getZPath size centerX centerY
      else if type == "8" then getFigure8Path M size centerX centerY
      else if type == "infinity" then getInfinityPath M size centerX centerY
      else if type == "vibrate" then getVibratePath M size centerX centerY
      else getCirclePath M (size / 2) centerX centerY
    let effectiveDirection :=
      if type == "triangle" then (if direction == "clockwise" then "counter" else "clockwise")
      else direction
    fun t => pathFn (applyDirection t phase effectiveDirection)

/-- `shapeRadiusToFactor(radius)`. -/
def shapeRadiusToFactor (radius : ℚ) : ℚ := radius / 5

/-- `getRandomGlobalCenter(box, shapeRadius)`; `u` is the draw of the `x` line and `v` the
draw of the `y` line. -/
def getRandomGlobalCenter (box : Box) (shapeRadius : ℚ) (u v : Draw) : Point :=
  let baseSize := min box.width box.height * 0.35
  let size := baseSize * shapeRadiusToFactor shapeRadius
  let half := size / 2
  let minX := box.padding + half
  let maxX := box.padding + box.width - half
  let minY := box.padding + half
  let maxY := box.padding + box.height - half
  { x := minX + u.val * (maxX - minX),
    y := minY + v.val * (maxY - minY) }

/-- `getGlobalMovementPath(shape, box, charIndex, totalChars, center, shapeRadius,
direction)`. -/
def getGlobalMovementPath (M : HostMath) (shape : String) (box : Box)
    (charIndex totalChars : Nat) (center : Point) (shapeRadius : ℚ) (direction : String) :
    ℚ → JSPoint :=
  let baseSize := min box.width box.height * 0.35
  let size := baseSize * shapeRadiusToFactor shapeRadius
  let phase := if 1 < totalChars then fmod ((charIndex : ℚ) / (totalChars : ℚ)) 1 else 0
  getPathByType M shape center.x center.y size box phase charIndex direction

/-- `getSeparateMovementPath(shape, box, baseX, baseY, index, shapeRadius, direction)`. -/
def getSeparateMovementPath (M : HostMath) (shape : String) (box : Box) (baseX baseY : ℚ)
    (index : Nat) (shapeRadius : ℚ) (direction : String) : ℚ → JSPoint :=
  let baseSize := min box.width box.height * 0.15
  let size := baseSize * shapeRadiusToFactor shapeRadius
  let phase := fmod ((index : ℚ) * 0.17) 1
  getPathByType M shape baseX baseY size box phase index direction

/-- `getNoiseMovementPath(type, box, index, baseX, baseY, shapeRadius, direction)`. -/
def getNoiseMovementPath (M : HostMath) (type : String) (box : Box) (index : Nat)
    (baseX baseY : ℚ) (shapeRadius : ℚ) (direction : String) : ℚ → JSPoint :=
  let baseSize := min box.width box.height * 0.15
  let size := baseSize * shapeRadiusToFactor shapeRadius
  let phase := fmod ((index : ℚ) * 0.17) 1
  getPathByType M type baseX baseY size box phase index direction

/-- The fields of `options` that `getPathForPlacement` reads. -/
structure Options where
  /-- `"global"` or `"separate"`. -/
  solutionStyle : String
  /-- Shape of the solution paths. -/
  solutionShape : String
  /-- Shape or mode of the noise paths. -/
  noiseMovement : String
  /-- Direction of the solution paths. -/
  solutionDirection : String
  /-- Direction of the noise paths. -/
  noiseDirection : String
  /-- The dial that scales every path. -/
  shapeRadius : ℚ
  /-- The centre shared by the solution characters in the global style. -/
  globalCenter : Point

/-- `getPathForPlacement(placement, placements, box, options)`. -/
def getPathForPlacement (M : HostMath) (placement : Placement) (placements : List Placement)
    (box : Box) (options : Options) : ℚ → JSPoint :=
  if placement.isSolution then
    let solutionCount := (placements.filter (fun p => p.isSolution)).length
    if options.solutionStyle == "global" then
      getGlobalMovementPath M options.solutionShape box placement.index solutionCount
        options.globalCenter options.shapeRadius options.solutionDirection
    else
      getSeparateMovementPath M options.solutionShape box placement.x placement.y
        placement.index options.shapeRadius options.solutionDirection
  else
    getNoiseMovementPath M options.noiseMovement box placement.index placement.x placement.y
      options.shapeRadius options.noiseDirection

/-! ## Validation feedback (`main.js` 498-506) -/

/-- `showValidationResult(valid, inputs, statusEl, userValue, solution)`, as far as the input
boxes go: `inputs` is the number of boxes and `statusEl` tells whether the status element
exists.  The result lists, box by box, whether the box carries the class `invalid` after the
call (`invalidIndices[i] === true`); it is `none` when the status element is missing, where
the function returns at once. -/
def showValidationResult (valid : Bool) (inputs : Nat) (statusEl : Bool)
    (userValue solution : String) : Option (List Bool) :=
  if !statusEl then none
  else
    let invalidIndices := if valid then [] else getInvalidIndices userValue solution
    some ((List.range inputs).map (fun i => decide (invalidIndices[i]? = some true)))

/-! ## Teleportation (`main.js` 247-270), restated for the theorems -/

/-- The point that the path of the `"teleportation"` mode returns once `step` is known: the
lines that compute `seed1`, `seed2` and the returned object. -/
def teleportationPoint (M : HostMath) (box : Box) (phase : ℚ) (index : Nat) (step : ℚ) :
    JSPoint :=
  let margin := CHAR_SIZE / 2
  let minX := box.padding + margin
  let maxX := box.padding + box.width - margin
  let minY := box.padding + margin
  let maxY := box.padding + box.height - margin
  let seed1 := (index : ℚ) * 7.3 + step * 11.7 + phase * 100
  let seed2 := (index : ℚ) * 13.1 + step * 17.9 + phase * 100 + 1
  { x := .num (minX + seededRandom M seed1 * (maxX - minX)),
    y := .num (minY + seededRandom M seed2 * (maxY - minY)) }

/-- A host that has, at the seeds of the teleportation examples, the sine rounded to ten
decimals (`sin 1 = 0.8414709848…`, `sin (−61.7) = 0.9052012673…`, and so on), and `0`
elsewhere; its other fields are those of `sampleHost`. -/
def tabulatedHost : HostMath :=
  { sampleHost with
    sin := fun x =>
      if x = 1 then 0.8414709848
      else if x = -61.7 then 0.9052012674
      else if x = -50 then 0.2623748537
      else if x = -38.3 then -0.5653752781
      else if x = -26.6 then -0.9946447739
      else if x = -14.9 then -0.7228813495
      else if x = -3.2 then 0.0583741434
      else if x = 8.5 then 0.7984871126
      else if x = 20.2 then 0.9758205178
      else if x = 31.9 then 0.4653884764
      else 0 }

/-! ## Theorems -/

theorem codeUnitsLe_total (a b : List Nat) : codeUnitsLe a b = true ∨ codeUnitsLe b a = true := by
  induction a generalizing b with
  | nil => simp [codeUnitsLe]
  | cons x xs ih =>
    cases b with
    | nil => simp [codeUnitsLe]
    | cons y ys =>
      simp only [codeUnitsLe, Bool.or_eq_true, Bool.and_eq_true, decide_eq_true_eq, beq_iff_eq]
      rcases Nat.lt_trichotomy x y with h | h | h
      · exact Or.inl (Or.inl h)
      · rcases ih ys with h2 | h2
        · exact Or.inl (Or.inr ⟨h, h2⟩)
        · exact Or.inr (Or.inr ⟨h.symm, h2⟩)
      · exact Or.inr (Or.inl h)

theorem codeUnitsLe_trans (a b c : List Nat) (hab : codeUnitsLe a b = true)
    (hbc : codeUnitsLe b c = true) : codeUnitsLe a c = true := by
  induction a generalizing b c with
  | nil => simp [codeUnitsLe]
  | cons x xs ih =>
    cases b with
    | nil => simp [codeUnitsLe] at hab
    | cons y ys =>
      cases c with
      | nil => simp [codeUnitsLe] at hbc
      | cons z zs =>
        simp only [codeUnitsLe, Bool.or_eq_true, Bool.and_eq_true, decide_eq_true_eq,
          beq_iff_eq] at hab hbc ⊢
        rcases hab with h1 | ⟨h1, h1r⟩
        · rcases hbc with h2 | ⟨h2, _⟩
          · exact Or.inl (by omega)
          · exact Or.inl (by omega)
        · rcases hbc with h2 | ⟨h2, h2r⟩
          · exact Or.inl (by omega)
          · exact Or.inr ⟨by omega, ih ys zs h1r h2r⟩

theorem codeUnitsLe_antisymm (a b : List Nat) (hab : codeUnitsLe a b = true)
    (hba : codeUnitsLe b a = true) : a = b := by
  induction a generalizing b with
  | nil =>
    cases b with
    | nil => rfl
    | cons y ys => simp [codeUnitsLe] at hba
  | cons x xs ih =>
    cases b with
    | nil => simp [codeUnitsLe] at hab
    | cons y ys =>
      simp only [codeUnitsLe, Bool.or_eq_true, Bool.and_eq_true, decide_eq_true_eq,
        beq_iff_eq] at hab hba
      rcases hab with h1 | ⟨h1, h1r⟩
      · rcases hba with h2 | ⟨h2, _⟩ <;> omega
      · rcases hba with h2 | ⟨_, h2r⟩
        · omega
        · rw [h1, ih ys h1r h2r]

theorem utf16_injective (a b : Char) (h : utf16 a = utf16 b) : a = b := by
  have key : a.toNat = b.toNat := by
    unfold utf16 at h
    split_ifs at h with ha hb hb
    · simpa using h
    · simp at h
    · simp at h
    · simp only [List.cons.injEq, and_true] at h
      omega
  apply Char.ext
  apply UInt32.ext
  exact key

theorem sortLe_isTotal : IsTotal Char sortLe :=
  ⟨fun a b => codeUnitsLe_total (utf16 a) (utf16 b)⟩

theorem sortLe_isTrans : IsTrans Char sortLe :=
  ⟨fun a b c hab hbc => codeUnitsLe_trans (utf16 a) (utf16 b) (utf16 c) hab hbc⟩

theorem sortLe_isAntisymm : IsAntisymm Char sortLe :=
  ⟨fun a b hab hba => utf16_injective a b (codeUnitsLe_antisymm (utf16 a) (utf16 b) hab hba)⟩

theorem jsSort_perm (l : List Char) : (jsSort l).Perm l := List.perm_insertionSort sortLe l

theorem jsSort_eq_iff_perm (l₁ l₂ : List Char) : jsSort l₁ = jsSort l₂ ↔ l₁.Perm l₂ := by
  constructor
  · intro h
    exact ((jsSort_perm l₁).symm.trans (h ▸ List.Perm.refl _)).trans (jsSort_perm l₂)
  · intro h
    haveI := sortLe_isTotal
    haveI := sortLe_isTrans
    haveI := sortLe_isAntisymm
    exact List.eq_of_perm_of_sorted (((jsSort_perm l₁).trans h).trans (jsSort_perm l₂).symm)
      (List.sorted_insertionSort sortLe l₁) (List.sorted_insertionSort sortLe l₂)

theorem string_mk_eq_iff (a b : List Char) : String.mk a = String.mk b ↔ a = b :=
  ⟨fun h => by injection h, fun h => by rw [h]⟩

/-- C1: `validateSolution(u, s)` is true exactly when the characters of `normalizeInput(u)`
are a permutation of the characters of `s` (same characters, same multiplicities), whatever
the order of entry; for instance `validateSolution("BCA", "ABC")` is true. -/
theorem validateSolution_iff_perm (upper : Char → List Char) (u s : String) :
    (validateSolution upper u s = true ↔ (normalizeInput upper u).toList.Perm s.toList) ∧
    validateSolution asciiUpper "BCA" "ABC" = true := by
  refine ⟨?_, by decide⟩
  simp only [validateSolution, decide_eq_true_eq, string_mk_eq_iff]
  exact jsSort_eq_iff_perm _ _

theorem countChars_foldl (s : List Char) (init : Char → Nat) (c : Char) :
    s.foldl (fun counts d => Function.update counts d (counts d + 1)) init c
      = init c + s.count c := by
  induction s generalizing init with
  | nil => simp
  | cons d ds ih =>
    rw [List.foldl_cons, ih, List.count_cons]
    by_cases h : d = c
    · subst h; simp; omega
    · have h2 : c ≠ d := fun e => h e.symm
      simp [Function.update_noteq h2, h]

theorem countChars_eq_count (s : List Char) (c : Char) : countChars s c = s.count c := by
  unfold countChars
  rw [countChars_foldl]
  simp

theorem invalidLoop_length (u : List Char) (counts : Char → Nat) :
    (invalidLoop u counts).length = u.length := by
  induction u generalizing counts with
  | nil => rfl
  | cons c rest ih =>
    unfold invalidLoop
    split_ifs <;> simp [ih]

theorem invalidLoop_getElem? (u : List Char) (counts : Char → Nat) (i : Nat) (c : Char)
    (hc : u[i]? = some c) :
    (invalidLoop u counts)[i]? = some (!decide ((u.take i).count c < counts c)) := by
  induction u generalizing counts i with
  | nil => simp at hc
  | cons c0 rest ih =>
    cases i with
    | zero =>
      simp only [List.getElem?_cons_zero, Option.some.injEq] at hc
      subst hc
      unfold invalidLoop
      split_ifs with h <;> simp [h]
    | succ i =>
      simp only [List.getElem?_cons_succ] at hc
      unfold invalidLoop
      split_ifs with h
      · rw [List.getElem?_cons_succ, ih _ i hc, List.take_succ_cons, List.count_cons]
        by_cases e : c0 = c
        · subst e
          simp only [Function.update_same, beq_self_eq_true, if_true]
          congr 2
          apply decide_eq_decide.mpr
          omega
        · have e2 : c ≠ c0 := fun x => e x.symm
          simp [Function.update_noteq e2, e]
      · rw [List.getElem?_cons_succ, ih _ i hc, List.take_succ_cons, List.count_cons]
        by_cases e : c0 = c
        · subst e
          simp only [beq_self_eq_true, if_true]
          congr 2
          apply decide_eq_decide.mpr
          omega
        · simp [e]

/-- C2: `getInvalidIndices(u, s)` has one boolean per character of `u`; slot `i` is `false`
exactly when the number of earlier slots holding the same character as slot `i` is smaller
than the number of occurrences of that character in `s`, and `true` otherwise.  For the
solution `AAB`, `ABA` gives `[false, false, false]` and `ABB` gives `[false, false, true]`. -/
theorem getInvalidIndices_greedy (u s : String) :
    (getInvalidIndices u s).length = u.length ∧
    (∀ (i : Nat) (c : Char), u.toList[i]? = some c →
      ((getInvalidIndices u s)[i]? = some false ↔
        (u.toList.take i).count c < s.toList.count c) ∧
      ((getInvalidIndices u s)[i]? = some true ↔
        ¬ (u.toList.take i).count c < s.toList.count c)) ∧
    getInvalidIndices "ABA" "AAB" = [false, false, false] ∧
    getInvalidIndices "ABB" "AAB" = [false, false, true] := by
  refine ⟨?_, ?_, by decide, by decide⟩
  · exact invalidLoop_length _ _
  · intro i c hc
    unfold getInvalidIndices
    rw [invalidLoop_getElem? _ _ i c hc, countChars_eq_count]
    by_cases h : (u.toList.take i).count c < s.toList.count c <;> simp [h]

/-- Witness for C2: slot 2 of the input `ABB` holds `B`, and against `AAB` it is invalid. -/
theorem getInvalidIndices_greedy_witness :
    "ABB".toList[2]? = some 'B' ∧
    ((getInvalidIndices "ABB" "AAB")[2]? = some true ↔
      ¬ ("ABB".toList.take 2).count 'B' < "AAB".toList.count 'B') :=
  ⟨by decide, ((getInvalidIndices_greedy "ABB" "AAB").2.1 2 'B' (by decide)).2⟩

theorem filter_flatMap_whiteSpace (upper : Char → List Char)
    (hws : ∀ c, isWhiteSpace c = true → ∀ d ∈ upper c, isWhiteSpace d = true)
    (w : List Char) (hw : ∀ c ∈ w, isWhiteSpace c = true) :
    (w.flatMap upper).filter (fun c => !isWhiteSpace c) = [] := by
  rw [List.filter_eq_nil_iff]
  intro d hd
  rw [List.mem_flatMap] at hd
  obtain ⟨c, hc, hdc⟩ := hd
  simp [hws c (hw c hc) d hdc]

theorem rdropWhile_append_rtakeWhile (p : Char → Bool) (l : List Char) :
    l.rdropWhile p ++ l.rtakeWhile p = l := by
  unfold List.rdropWhile List.rtakeWhile
  rw [← List.reverse_append, List.takeWhile_append_dropWhile, List.reverse_reverse]

theorem filter_flatMap_trim (upper : Char → List Char)
    (hws : ∀ c, isWhiteSpace c = true → ∀ d ∈ upper c, isWhiteSpace d = true)
    (l : List Char) :
    ((trim l).flatMap upper).filter (fun c => !isWhiteSpace c)
      = (l.flatMap upper).filter (fun c => !isWhiteSpace c) := by
  have h1 : l = l.takeWhile isWhiteSpace ++ (trim l ++ (l.dropWhile isWhiteSpace).rtakeWhile
      isWhiteSpace) := by
    unfold trim
    rw [rdropWhile_append_rtakeWhile, List.takeWhile_append_dropWhile]
  conv_rhs => rw [h1]
  rw [List.flatMap_append, List.flatMap_append, List.filter_append, List.filter_append,
    filter_flatMap_whiteSpace upper hws _ (fun c hc => List.mem_takeWhile_imp hc),
    filter_flatMap_whiteSpace upper hws _ (fun c hc => List.mem_rtakeWhile_imp hc)]
  simp

theorem filter_flatMap_filter (upper : Char → List Char)
    (hws : ∀ c, isWhiteSpace c = true → ∀ d ∈ upper c, isWhiteSpace d = true)
    (l : List Char) :
    ((l.filter (fun c => !isWhiteSpace c)).flatMap upper).filter (fun c => !isWhiteSpace c)
      = (l.flatMap upper).filter (fun c => !isWhiteSpace c) := by
  induction l with
  | nil => rfl
  | cons c cs ih =>
    by_cases hc : isWhiteSpace c = true
    · have h0 := filter_flatMap_whiteSpace upper hws [c] (by simpa using hc)
      rw [List.flatMap_singleton] at h0
      rw [List.filter_cons_of_neg (by simpa using hc), List.flatMap_cons, List.filter_append,
        h0, ih]
      simp
    · rw [List.filter_cons_of_pos (by simpa using hc), List.flatMap_cons, List.flatMap_cons,
        List.filter_append, List.filter_append, ih]

theorem normalizeInput_toList (upper : Char → List Char)
    (hws : ∀ c, isWhiteSpace c = true → ∀ d ∈ upper c, isWhiteSpace d = true) (u : String) :
    (normalizeInput upper u).toList
      = (u.toList.flatMap upper).filter (fun c => !isWhiteSpace c) := by
  show ((toUpperCase upper (trim u.toList)).filter (fun c => !isWhiteSpace c)) = _
  unfold toUpperCase
  exact filter_flatMap_trim upper hws _

theorem trim_eq_self (l : List Char) (h : ∀ c ∈ l, isWhiteSpace c = false) : trim l = l := by
  unfold trim
  have h1 : l.dropWhile isWhiteSpace = l := by
    rw [List.dropWhile_eq_self_iff]
    intro hl
    cases l with
    | nil => simp at hl
    | cons c cs => simpa using h c (List.mem_cons_self _ _)
  rw [h1, List.rdropWhile_eq_self_iff]
  intro hl
  simpa using h _ (List.getLast_mem hl)

theorem normalizeInput_idem (upper : Char → List Char)
    (hidem : ∀ c, ∀ d ∈ upper c, upper d = [d]) (u : String) :
    normalizeInput upper (normalizeInput upper u) = normalizeInput upper u := by
  have hmem : ∀ d ∈ (normalizeInput upper u).toList,
      isWhiteSpace d = false ∧ upper d = [d] := by
    intro d hd
    change d ∈ (toUpperCase upper (trim u.toList)).filter (fun c => !isWhiteSpace c) at hd
    rw [List.mem_filter] at hd
    obtain ⟨hd1, hd2⟩ := hd
    unfold toUpperCase at hd1
    rw [List.mem_flatMap] at hd1
    obtain ⟨c, _, hdc⟩ := hd1
    exact ⟨by simpa using hd2, hidem c d hdc⟩
  generalize normalizeInput upper u = v at hmem
  unfold normalizeInput toUpperCase
  rw [trim_eq_self _ (fun c hc => (hmem c hc).1)]
  have h2 : v.toList.flatMap upper = v.toList := by
    generalize v.toList = l at hmem
    induction l with
    | nil => rfl
    | cons c cs ih =>
      rw [List.flatMap_cons, (hmem c (List.mem_cons_self _ _)).2,
        ih (fun d hd => hmem d (List.mem_cons_of_mem _ hd))]
      rfl
  rw [h2, List.filter_eq_self.mpr (fun c hc => by simp [(hmem c hc).1])]
  cases v
  rfl

/-- C3: `validateSolution` does not see case or white space in the user input.  Over an
upper-case table that is idempotent, maps white space to white space and gives a letter
`a`-`z` the image of its capital (as the Unicode table does): the verdict on `u` is the
verdict on `normalizeInput(u)`; lower-casing the letters `A`-`Z` of `u` keeps the verdict,
and so does any change of `u` that keeps the upper-case image of every character; an
input that differs from `u` only by white space, wherever it stands, gets the same
verdict; and `validateSolution(" a b c ", "ABC")` is true. -/
theorem validateSolution_case_whitespace_insensitive (upper : Char → List Char)
    (hidem : ∀ c, ∀ d ∈ upper c, upper d = [d])
    (hws : ∀ c, isWhiteSpace c = true → ∀ d ∈ upper c, isWhiteSpace d = true)
    (hlower : ∀ c, upper c.toLower = upper c)
    (u s : String) :
    validateSolution upper u s = validateSolution upper (normalizeInput upper u) s ∧
    validateSolution upper (String.mk (u.toList.map Char.toLower)) s
      = validateSolution upper u s ∧
    (∀ v : String, v.toList.map upper = u.toList.map upper →
      validateSolution upper v s = validateSolution upper u s) ∧
    (∀ v : String, v.toList.filter (fun c => !isWhiteSpace c)
        = u.toList.filter (fun c => !isWhiteSpace c) →
      validateSolution upper v s = validateSolution upper u s) ∧
    validateSolution asciiUpper " a b c " "ABC" = true := by
  have hcase : ∀ v : String, v.toList.map upper = u.toList.map upper →
      validateSolution upper v s = validateSolution upper u s := by
    intro v hv
    unfold validateSolution
    rw [normalizeInput_toList upper hws, normalizeInput_toList upper hws,
      List.flatMap_def, List.flatMap_def, hv]
  refine ⟨?_, ?_, hcase, ?_, by decide⟩
  · unfold validateSolution
    rw [normalizeInput_idem upper hidem]
  · apply hcase
    show (u.toList.map Char.toLower).map upper = u.toList.map upper
    rw [List.map_map]
    exact List.map_congr_left (fun c _ => hlower c)
  · intro v hv
    unfold validateSolution
    rw [normalizeInput_toList upper hws, normalizeInput_toList upper hws,
      ← filter_flatMap_filter upper hws v.toList, hv, filter_flatMap_filter upper hws]

theorem toNat_toUpper (c : Char) :
    c.toUpper.toNat = if 97 ≤ c.toNat ∧ c.toNat ≤ 122 then c.toNat - 32 else c.toNat := by
  unfold Char.toUpper
  by_cases h : 97 ≤ c.toNat ∧ c.toNat ≤ 122
  · have hv : (c.toNat - 32).isValidChar := Or.inl (by omega)
    simp only [ge_iff_le, h, and_self, if_true, Char.ofNat, hv, dif_pos]
    rfl
  · simp only [ge_iff_le, h, if_false]

theorem toUpper_toUpper (c : Char) : c.toUpper.toUpper = c.toUpper := by
  have h := toNat_toUpper c
  generalize c.toUpper = d at h
  unfold Char.toUpper
  have hd : ¬ (d.toNat ≥ 97 ∧ d.toNat ≤ 122) := by
    split_ifs at h <;> omega
  simp only [hd, if_false]

theorem asciiUpper_idem (c : Char) : ∀ d ∈ asciiUpper c, asciiUpper d = [d] := by
  intro d hd
  simp only [asciiUpper, List.mem_singleton] at hd
  subst hd
  simp only [asciiUpper, toUpper_toUpper]

theorem asciiUpper_whiteSpace (c : Char) (hc : isWhiteSpace c = true) :
    ∀ d ∈ asciiUpper c, isWhiteSpace d = true := by
  intro d hd
  simp only [asciiUpper, List.mem_singleton] at hd
  subst hd
  have h : c.toUpper = c := by
    unfold Char.toUpper
    have hn : ¬ (c.toNat ≥ 97 ∧ c.toNat ≤ 122) := by
      intro hn
      simp only [isWhiteSpace, Bool.or_eq_true, beq_iff_eq, Bool.and_eq_true,
        decide_eq_true_eq] at hc
      omega
    simp only [hn, if_false]
  rw [h]
  exact hc

theorem toNat_toLower (c : Char) :
    c.toLower.toNat = if 65 ≤ c.toNat ∧ c.toNat ≤ 90 then c.toNat + 32 else c.toNat := by
  unfold Char.toLower
  by_cases h : 65 ≤ c.toNat ∧ c.toNat ≤ 90
  · have hv : (c.toNat + 32).isValidChar := Or.inl (by omega)
    simp only [ge_iff_le, h, and_self, if_true, Char.ofNat, hv, dif_pos]
    rfl
  · simp only [ge_iff_le, h, if_false]

theorem toUpper_toLower (c : Char) : c.toLower.toUpper = c.toUpper := by
  apply Char.ext
  apply UInt32.ext
  show c.toLower.toUpper.toNat = c.toUpper.toNat
  rw [toNat_toUpper, toNat_toUpper, toNat_toLower]
  split_ifs <;> omega

theorem asciiUpper_toLower (c : Char) : asciiUpper c.toLower = asciiUpper c := by
  simp only [asciiUpper, toUpper_toLower]

/-- Witness for C3 over the ASCII table: ` a b c ` and `ABC` differ only by white space and
case, and both are accepted against `ABC`. -/
theorem validateSolution_case_whitespace_insensitive_witness :
    validateSolution asciiUpper " a b c " "ABC"
      = validateSolution asciiUpper (normalizeInput asciiUpper " a b c ") "ABC" ∧
    validateSolution asciiUpper (String.mk ("ABC".toList.map Char.toLower)) "ABC"
      = validateSolution asciiUpper "ABC" "ABC" ∧
    validateSolution asciiUpper " A B C " "ABC" = validateSolution asciiUpper "ABC" "ABC" :=
  ⟨(validateSolution_case_whitespace_insensitive asciiUpper asciiUpper_idem
      asciiUpper_whiteSpace asciiUpper_toLower " a b c " "ABC").1,
    (validateSolution_case_whitespace_insensitive asciiUpper asciiUpper_idem
      asciiUpper_whiteSpace asciiUpper_toLower "ABC" "ABC").2.1,
    (validateSolution_case_whitespace_insensitive asciiUpper asciiUpper_idem
      asciiUpper_whiteSpace asciiUpper_toLower "ABC" "ABC").2.2.2.1 " A B C " (by decide)⟩

theorem Draw.index_zero (n : Nat) (h : 0 < n) : (Draw.zero.index n h : Nat) = 0 := by
  simp [Draw.index, Draw.zero]

theorem get_cons_eraseIdx_perm {α : Type} (l : List α) (i : Fin l.length) :
    (l.get i :: l.eraseIdx i).Perm l := by
  obtain ⟨i, hi⟩ := i
  induction l generalizing i with
  | nil => simp at hi
  | cons a as ih =>
    cases i with
    | zero => simp
    | succ i =>
      have hi2 : i < as.length := by simpa using hi
      simp only [List.get_eq_getElem, List.getElem_cons_succ, List.eraseIdx_cons_succ]
      have h := ih i hi2
      simp only [List.get_eq_getElem] at h
      exact (List.Perm.swap a as[i] _).trans (List.Perm.cons a h)

theorem subperm_nodup {α : Type} {l₁ l₂ : List α} (h : List.Subperm l₁ l₂) (hn : l₂.Nodup) :
    l₁.Nodup := by
  obtain ⟨l, hp, hs⟩ := h
  exact hp.nodup_iff.mp (hn.sublist hs)

theorem pickRandomLoop_length {α : Type} (rand : Nat → Draw) (fuel k : Nat) (copy : List α) :
    (pickRandomLoop rand fuel k copy).length = min fuel copy.length := by
  induction fuel generalizing k copy with
  | zero => simp [pickRandomLoop]
  | succ fuel ih =>
    unfold pickRandomLoop
    split_ifs with h
    · simp only [List.length_cons, ih, List.length_eraseIdx]
      rw [if_pos (Fin.is_lt _)]
      omega
    · have h0 : copy.length = 0 := by omega
      simp [h0]

theorem pickRandomLoop_subperm {α : Type} (rand : Nat → Draw) (fuel k : Nat) (copy : List α) :
    List.Subperm (pickRandomLoop rand fuel k copy) copy := by
  induction fuel generalizing k copy with
  | zero => simp [pickRandomLoop, List.nil_subperm]
  | succ fuel ih =>
    unfold pickRandomLoop
    split_ifs with h
    · exact ((List.subperm_cons _).mpr (ih (k + 1) _)).trans
        (get_cons_eraseIdx_perm copy _).subperm
    · exact List.nil_subperm

theorem pickRandom_length {α : Type} (rand : Nat → Draw) (arr : List α) (n : Nat) :
    (pickRandom rand arr n).length = min n arr.length :=
  pickRandomLoop_length rand n 0 arr

theorem pickRandom_subperm {α : Type} (rand : Nat → Draw) (arr : List α) (n : Nat) :
    List.Subperm (pickRandom rand arr n) arr :=
  pickRandomLoop_subperm rand n 0 arr

/-- C4: over an alphabet of pairwise distinct characters and for `length ≤ |alphabet|`,
`generateSolution(length, alphabet)` returns, for every outcome of the random draws, a string
of exactly `length` characters, pairwise distinct and all taken from the alphabet. -/
theorem generateSolution_distinct (rand : Nat → Draw) (length : Nat) (alphabet : String)
    (hnodup : alphabet.toList.Nodup) (hlen : length ≤ alphabet.length) :
    (generateSolution rand length alphabet).length = length ∧
    (generateSolution rand length alphabet).toList.Nodup ∧
    ∀ c ∈ (generateSolution rand length alphabet).toList, c ∈ alphabet.toList := by
  have hsub := pickRandom_subperm rand alphabet.toList length
  refine ⟨?_, ?_, ?_⟩
  · show (pickRandom rand alphabet.toList length).length = length
    rw [pickRandom_length]
    exact Nat.min_eq_left hlen
  · exact subperm_nodup hsub hnodup
  · exact fun c hc => hsub.subset hc

/-- Witness for C4: five characters drawn from the clean alphabet. -/
theorem generateSolution_distinct_witness :
    getCleanAlphabet.toList.Nodup ∧ 5 ≤ getCleanAlphabet.length ∧
    (generateSolution (fun _ => Draw.zero) 5 getCleanAlphabet).length = 5 ∧
    (generateSolution (fun _ => Draw.zero) 5 getCleanAlphabet).toList.Nodup ∧
    ∀ c ∈ (generateSolution (fun _ => Draw.zero) 5 getCleanAlphabet).toList,
      c ∈ getCleanAlphabet.toList :=
  ⟨by decide, by decide,
    generateSolution_distinct (fun _ => Draw.zero) 5 getCleanAlphabet (by decide) (by decide)⟩

/-- C5: every character returned by `generateNoise(count, alphabet, excludeChars)` is a
character of `alphabet` that does not occur in `excludeChars`, for every outcome of the
random draws; when `alphabet` has no repeated character the returned characters are
pairwise distinct. -/
theorem generateNoise_disjoint (rand : Nat → Draw) (count : Nat)
    (alphabet excludeChars : String) :
    (∀ c ∈ generateNoise rand count alphabet excludeChars,
      c ∈ alphabet.toList ∧ c ∉ excludeChars.toList) ∧
    (alphabet.toList.Nodup → (generateNoise rand count alphabet excludeChars).Nodup) := by
  have hsub := pickRandom_subperm rand
    (alphabet.toList.filter (fun c => !decide (c ∈ excludeChars.toList))) count
  refine ⟨?_, ?_⟩
  · intro c hc
    have h := hsub.subset hc
    rw [List.mem_filter] at h
    exact ⟨h.1, by simpa using h.2⟩
  · intro hn
    exact subperm_nodup hsub (hn.filter _)

/-- Witness for C5: eight noise characters of the clean alphabet around the solution `ABC`. -/
theorem generateNoise_disjoint_witness :
    getCleanAlphabet.toList.Nodup ∧
    (generateNoise (fun _ => Draw.zero) 8 getCleanAlphabet "ABC").Nodup :=
  ⟨by decide,
    (generateNoise_disjoint (fun _ => Draw.zero) 8 getCleanAlphabet "ABC").2 (by decide)⟩

/-- C6, as stated, fails: asked for three characters of the two-character alphabet `AB`,
`generateSolution` raises nothing and returns the two-character string `AB`. -/
theorem generateSolution_short_counterexample :
    "AB".length < 3 ∧ generateSolution (fun _ => Draw.zero) 3 "AB" = "AB" := by
  refine ⟨by decide, ?_⟩
  simp [generateSolution, pickRandom, pickRandomLoop, Draw.index_zero]

/-- C6, amended: when `length > |alphabet|`, `generateSolution(length, alphabet)` raises no
error; it returns a string of exactly `|alphabet|` characters, a rearrangement of the whole
alphabet, which is shorter than `length`. -/
theorem generateSolution_saturates (rand : Nat → Draw) (length : Nat) (alphabet : String)
    (hlen : alphabet.length < length) :
    (generateSolution rand length alphabet).length = alphabet.length ∧
    (generateSolution rand length alphabet).length < length ∧
    (generateSolution rand length alphabet).toList.Perm alphabet.toList := by
  have hl : (generateSolution rand length alphabet).length = alphabet.length := by
    show (pickRandom rand alphabet.toList length).length = alphabet.toList.length
    rw [pickRandom_length]
    exact Nat.min_eq_right (Nat.le_of_lt hlen)
  refine ⟨hl, by omega, ?_⟩
  exact (pickRandom_subperm rand alphabet.toList length).perm_of_length_le (Nat.le_of_eq hl.symm)

/-- Witness for C6 amended: forty characters asked of the clean alphabet. -/
theorem generateSolution_saturates_witness :
    getCleanAlphabet.length < 40 ∧
    (generateSolution (fun _ => Draw.zero) 40 getCleanAlphabet).length
      = getCleanAlphabet.length :=
  ⟨by decide, (generateSolution_saturates (fun _ => Draw.zero) 40 getCleanAlphabet
    (by decide)).1⟩

/-- C7: `generateNoise(count, alphabet, excludeChars)` is total and returns exactly
`min(count, r)` characters, `r` being the number of positions of `alphabet` whose character
does not occur in `excludeChars`, for every outcome of the random draws. -/
theorem generateNoise_length (rand : Nat → Draw) (count : Nat)
    (alphabet excludeChars : String) :
    (generateNoise rand count alphabet excludeChars).length
      = min count (alphabet.toList.countP (fun c => !decide (c ∈ excludeChars.toList))) := by
  unfold generateNoise
  rw [pickRandom_length, List.countP_eq_length_filter]

theorem cons_set_perm {α : Type} (l : List α) (j : Nat) (a b : α) (h : l[j]? = some b) :
    (b :: l.set j a).Perm (a :: l) := by
  induction l generalizing j with
  | nil => simp at h
  | cons x xs ih =>
    cases j with
    | zero =>
      simp only [List.getElem?_cons_zero, Option.some.injEq] at h
      subst h
      exact List.Perm.swap _ _ _
    | succ j =>
      simp only [List.getElem?_cons_succ] at h
      simp only [List.set_cons_succ]
      exact (List.Perm.swap _ _ _).trans (((ih j h).cons x).trans (List.Perm.swap _ _ _))

theorem swap_perm {α : Type} (l : List α) (i j : Nat) : (swap l i j).Perm l := by
  unfold swap
  split
  · rename_i a b ha hb
    induction l generalizing i j with
    | nil => simp at ha
    | cons x xs ih =>
      cases i with
      | zero =>
        simp only [List.getElem?_cons_zero, Option.some.injEq] at ha
        subst ha
        cases j with
        | zero =>
          simp only [List.getElem?_cons_zero, Option.some.injEq] at hb
          subst hb
          simp
        | succ j =>
          simp only [List.getElem?_cons_succ] at hb
          simp only [List.set_cons_zero, List.set_cons_succ]
          exact cons_set_perm xs j x b hb
      | succ i =>
        simp only [List.getElem?_cons_succ] at ha
        cases j with
        | zero =>
          simp only [List.getElem?_cons_zero, Option.some.injEq] at hb
          subst hb
          simp only [List.set_cons_zero, List.set_cons_succ]
          exact cons_set_perm xs i x a ha
        | succ j =>
          simp only [List.getElem?_cons_succ] at hb
          simp only [List.set_cons_succ]
          exact (ih i j ha hb).cons x
  · exact List.Perm.refl _

theorem shuffleLoop_perm {α : Type} (rand : Nat → Draw) (i k : Nat) (all : List α) :
    (shuffleLoop rand i k all).Perm all := by
  induction i generalizing k all with
  | zero => exact List.Perm.refl _
  | succ i ih =>
    unfold shuffleLoop
    exact (ih (k + 1) _).trans (swap_perm all _ _)

theorem placeLoop_length (rand : Nat → Draw) (box : Box) (l : List (Char × Bool))
    (k si ni : Nat) : (placeLoop rand box l k si ni).length = l.length := by
  induction l generalizing k si ni with
  | nil => rfl
  | cons e rest ih =>
    obtain ⟨c, b⟩ := e
    simp [placeLoop, ih]

theorem placeLoop_map (rand : Nat → Draw) (box : Box) (l : List (Char × Bool))
    (k si ni : Nat) :
    (placeLoop rand box l k si ni).map (fun p => (p.char, p.isSolution)) = l := by
  induction l generalizing k si ni with
  | nil => rfl
  | cons e rest ih =>
    obtain ⟨c, b⟩ := e
    simp [placeLoop, ih]

theorem placeLoop_solution_index (rand : Nat → Draw) (box : Box) (l : List (Char × Bool))
    (k si ni : Nat) :
    ((placeLoop rand box l k si ni).filter (fun p => p.isSolution)).map (fun p => p.index)
      = List.range' si (l.countP (fun e => e.2)) := by
  induction l generalizing k si ni with
  | nil => rfl
  | cons e rest ih =>
    obtain ⟨c, b⟩ := e
    cases b with
    | true => simp [placeLoop, ih, List.range'_succ]
    | false => simp [placeLoop, ih]

theorem placeLoop_noise_index (rand : Nat → Draw) (box : Box) (l : List (Char × Bool))
    (k si ni : Nat) :
    ((placeLoop rand box l k si ni).filter (fun p => !p.isSolution)).map (fun p => p.index)
      = List.range' ni (l.countP (fun e => !e.2)) := by
  induction l generalizing k si ni with
  | nil => rfl
  | cons e rest ih =>
    obtain ⟨c, b⟩ := e
    cases b with
    | true => simp [placeLoop, ih]
    | false => simp [placeLoop, ih, List.range'_succ]

theorem allEntries_length (solution : String) (noise : List Char) :
    (allEntries solution noise).length = solution.length + noise.length := by
  simp [allEntries]

theorem allEntries_countP_solution (solution : String) (noise : List Char) :
    (allEntries solution noise).countP (fun e => e.2) = solution.length := by
  simp [allEntries, List.countP_append, List.countP_map, Function.comp_def,
    List.countP_true, List.countP_false]

theorem allEntries_countP_noise (solution : String) (noise : List Char) :
    (allEntries solution noise).countP (fun e => !e.2) = noise.length := by
  simp [allEntries, List.countP_append, List.countP_map, Function.comp_def,
    List.countP_true, List.countP_false]

theorem shuffled_countP_solution (rand : Nat → Draw) (solution : String) (noise : List Char)
    (i k : Nat) :
    (shuffleLoop rand i k (allEntries solution noise)).countP (fun e => e.2)
      = solution.length := by
  rw [(shuffleLoop_perm rand i k _).countP_eq, allEntries_countP_solution]

theorem shuffled_countP_noise (rand : Nat → Draw) (solution : String) (noise : List Char)
    (i k : Nat) :
    (shuffleLoop rand i k (allEntries solution noise)).countP (fun e => !e.2)
      = noise.length := by
  rw [(shuffleLoop_perm rand i k _).countP_eq, allEntries_countP_noise]

theorem computePlacements_solution_index (rand : Nat → Draw) (solution : String)
    (noise : List Char) (box : Box) :
    ((computePlacements rand solution noise box).filter (fun p => p.isSolution)).map
      (fun p => p.index) = List.range solution.length := by
  unfold computePlacements
  simp only []
  rw [placeLoop_solution_index, shuffled_countP_solution, List.range_eq_range']

theorem computePlacements_noise_index (rand : Nat → Draw) (solution : String)
    (noise : List Char) (box : Box) :
    ((computePlacements rand solution noise box).filter (fun p => !p.isSolution)).map
      (fun p => p.index) = List.range noise.length := by
  unfold computePlacements
  simp only []
  rw [placeLoop_noise_index, shuffled_countP_noise, List.range_eq_range']

/-- C8: `computePlacements(solution, noise, box)` returns `|solution| + |noise|` placements,
exactly `|solution|` of them with `isSolution = true`; the `index` values of the solution
placements are a permutation of `0..|solution|-1` and those of the noise placements a
permutation of `0..|noise|-1`, for every outcome of the random draws. -/
theorem computePlacements_counts (rand : Nat → Draw) (solution : String) (noise : List Char)
    (box : Box) :
    (computePlacements rand solution noise box).length = solution.length + noise.length ∧
    (computePlacements rand solution noise box).countP (fun p => p.isSolution)
      = solution.length ∧
    (((computePlacements rand solution noise box).filter (fun p => p.isSolution)).map
      (fun p => p.index)).Perm (List.range solution.length) ∧
    (((computePlacements rand solution noise box).filter (fun p => !p.isSolution)).map
      (fun p => p.index)).Perm (List.range noise.length) := by
  refine ⟨?_, ?_, ?_, ?_⟩
  · unfold computePlacements
    simp only []
    rw [placeLoop_length, (shuffleLoop_perm rand _ _ _).length_eq, allEntries_length]
  · have h := congrArg List.length (computePlacements_solution_index rand solution noise box)
    rw [List.length_map, List.length_range] at h
    rw [List.countP_eq_length_filter]
    exact h
  · rw [computePlacements_solution_index]
  · rw [computePlacements_noise_index]

/-- C9, as stated, fails: for the solution `AB` without noise, when the shuffle draw is `0`
the two entries are exchanged, and the placement with index `0` carries `B`, which is not
the first character of the solution. -/
theorem computePlacements_index_counterexample :
    (computePlacements (fun _ => Draw.zero) "AB" [] ⟨300, 200, 12⟩).map
      (fun p => (p.char, p.isSolution, p.index)) = [('B', true, 0), ('A', true, 1)] ∧
    "AB".toList[0]? = some 'A' := by
  refine ⟨?_, by decide⟩
  simp [computePlacements, allEntries, shuffleLoop, swap, placeLoop, Draw.index_zero]

/-- C9, amended: the within-group index of `computePlacements` is assigned after the
shuffle, along the returned sequence: the solution placements, read in the order in which
they are returned, carry the indices `0, 1, .., |solution|-1`, the noise placements carry
`0, 1, .., |noise|-1`, and the characters follow the shuffled order of the entries. -/
theorem computePlacements_index_in_returned_order (rand : Nat → Draw) (solution : String)
    (noise : List Char) (box : Box) :
    ((computePlacements rand solution noise box).filter (fun p => p.isSolution)).map
      (fun p => p.index) = List.range solution.length ∧
    ((computePlacements rand solution noise box).filter (fun p => !p.isSolution)).map
      (fun p => p.index) = List.range noise.length ∧
    (computePlacements rand solution noise box).map (fun p => (p.char, p.isSolution))
      = shuffleLoop rand ((allEntries solution noise).length - 1) 0
          (allEntries solution noise) :=
  ⟨computePlacements_solution_index rand solution noise box,
    computePlacements_noise_index rand solution noise box,
    placeLoop_map rand box _ _ _ _⟩

theorem randomPositionInBox_bounds (box : Box) (u v : Draw)
    (hw : 2 * CHAR_SIZE ≤ box.width) (hh : 2 * CHAR_SIZE ≤ box.height) :
    box.padding ≤ (randomPositionInBox box CHAR_SIZE u v).x ∧
    (randomPositionInBox box CHAR_SIZE u v).x ≤ box.padding + box.width ∧
    box.padding ≤ (randomPositionInBox box CHAR_SIZE u v).y ∧
    (randomPositionInBox box CHAR_SIZE u v).y ≤ box.padding + box.height := by
  unfold CHAR_SIZE at hw hh
  simp only [randomPositionInBox, CHAR_SIZE]
  have hx : max 0 (box.width - 20 - 20 / 2) = box.width - 20 - 20 / 2 :=
    max_eq_right (by linarith)
  have hy : max 0 (box.height - 20 - 20 / 2) = box.height - 20 - 20 / 2 :=
    max_eq_right (by linarith)
  rw [hx, hy]
  have hu0 := u.nonneg
  have hu1 := u.lt_one
  have hv0 := v.nonneg
  have hv1 := v.lt_one
  have hxw : 0 ≤ box.width - 20 - 20 / 2 := by linarith
  have hyh : 0 ≤ box.height - 20 - 20 / 2 := by linarith
  have h1 : 0 ≤ u.val * (box.width - 20 - 20 / 2) := mul_nonneg hu0 hxw
  have h2 : u.val * (box.width - 20 - 20 / 2) ≤ 1 * (box.width - 20 - 20 / 2) :=
    mul_le_mul_of_nonneg_right hu1.le hxw
  have h3 : 0 ≤ v.val * (box.height - 20 - 20 / 2) := mul_nonneg hv0 hyh
  have h4 : v.val * (box.height - 20 - 20 / 2) ≤ 1 * (box.height - 20 - 20 / 2) :=
    mul_le_mul_of_nonneg_right hv1.le hyh
  refine ⟨by linarith, by linarith, by linarith, by linarith⟩

theorem placeLoop_mem (rand : Nat → Draw) (box : Box) (l : List (Char × Bool))
    (k si ni : Nat) (p : Placement) (hp : p ∈ placeLoop rand box l k si ni) :
    ∃ u v : Draw, p.x = (randomPositionInBox box CHAR_SIZE u v).x ∧
      p.y = (randomPositionInBox box CHAR_SIZE u v).y := by
  induction l generalizing k si ni with
  | nil => simp [placeLoop] at hp
  | cons e rest ih =>
    obtain ⟨c, b⟩ := e
    simp only [placeLoop, List.mem_cons] at hp
    rcases hp with hp | hp
    · exact ⟨rand k, rand (k + 1), by rw [hp], by rw [hp]⟩
    · exact ih _ _ _ hp

/-- C10: for a box whose width and height are at least `2 × CHAR_SIZE` and for all draws
`u`, `v` of `[0, 1)`, `randomPositionInBox(box, CHAR_SIZE)` returns
`x = padding + margin + u · max(0, width − charSize − margin)` with `margin = charSize / 2`
(likewise `y` with `v` and the height), and `padding ≤ x ≤ padding + width`,
`padding ≤ y ≤ padding + height`; the same bounds hold for every placement returned by
`computePlacements`. -/
theorem randomPositionInBox_in_box (box : Box) (u v : Draw)
    (hw : 2 * CHAR_SIZE ≤ box.width) (hh : 2 * CHAR_SIZE ≤ box.height) :
    (randomPositionInBox box CHAR_SIZE u v).x
      = box.padding + CHAR_SIZE / 2
        + u.val * max 0 (box.width - CHAR_SIZE - CHAR_SIZE / 2) ∧
    (randomPositionInBox box CHAR_SIZE u v).y
      = box.padding + CHAR_SIZE / 2
        + v.val * max 0 (box.height - CHAR_SIZE - CHAR_SIZE / 2) ∧
    (box.padding ≤ (randomPositionInBox box CHAR_SIZE u v).x ∧
      (randomPositionInBox box CHAR_SIZE u v).x ≤ box.padding + box.width ∧
      box.padding ≤ (randomPositionInBox box CHAR_SIZE u v).y ∧
      (randomPositionInBox box CHAR_SIZE u v).y ≤ box.padding + box.height) ∧
    ∀ (rand : Nat → Draw) (solution : String) (noise : List Char),
      ∀ p ∈ computePlacements rand solution noise box,
        box.padding ≤ p.x ∧ p.x ≤ box.padding + box.width ∧
        box.padding ≤ p.y ∧ p.y ≤ box.padding + box.height := by
  refine ⟨rfl, rfl, randomPositionInBox_bounds box u v hw hh, ?_⟩
  intro rand solution noise p hp
  obtain ⟨a, b, hx, hy⟩ := placeLoop_mem rand box _ _ _ _ p hp
  rw [hx, hy]
  exact randomPositionInBox_bounds box a b hw hh

/-- Witness for C10: the box of 300 by 200 with padding 12. -/
theorem randomPositionInBox_in_box_witness :
    2 * CHAR_SIZE ≤ (⟨300, 200, 12⟩ : Box).width ∧
    2 * CHAR_SIZE ≤ (⟨300, 200, 12⟩ : Box).height ∧
    (12 : ℚ) ≤ (randomPositionInBox ⟨300, 200, 12⟩ CHAR_SIZE Draw.zero Draw.zero).x ∧
    (randomPositionInBox ⟨300, 200, 12⟩ CHAR_SIZE Draw.zero Draw.zero).x ≤ 12 + 300 :=
  ⟨by norm_num [CHAR_SIZE], by norm_num [CHAR_SIZE],
    (randomPositionInBox_in_box ⟨300, 200, 12⟩ Draw.zero Draw.zero
      (by norm_num [CHAR_SIZE]) (by norm_num [CHAR_SIZE])).2.2.1.1,
    (randomPositionInBox_in_box ⟨300, 200, 12⟩ Draw.zero Draw.zero
      (by norm_num [CHAR_SIZE]) (by norm_num [CHAR_SIZE])).2.2.1.2.1⟩

@[simp] theorem JSNumber.num_add (a b : ℚ) :
    JSNumber.num a + JSNumber.num b = JSNumber.num (a + b) := rfl

@[simp] theorem JSNumber.num_sub (a b : ℚ) :
    JSNumber.num a - JSNumber.num b = JSNumber.num (a - b) := rfl

@[simp] theorem JSNumber.num_mul (a b : ℚ) :
    JSNumber.num a * JSNumber.num b = JSNumber.num (a * b) := rfl

@[simp] theorem JSNumber.num_lt (a b : ℚ) :
    (JSNumber.num a).lt (JSNumber.num b) = decide (a < b) := rfl

@[simp] theorem JSNumber.nan_lt (b : JSNumber) : JSNumber.nan.lt b = false := rfl

@[simp] theorem JSNumber.nan_sub (b : JSNumber) : JSNumber.nan - b = JSNumber.nan := rfl

@[simp] theorem JSNumber.nan_add (b : JSNumber) : JSNumber.nan + b = JSNumber.nan := rfl

@[simp] theorem JSNumber.nan_div (b : JSNumber) : JSNumber.nan / b = JSNumber.nan := rfl

@[simp] theorem JSNumber.num_add_nan (a : ℚ) :
    JSNumber.num a + JSNumber.nan = JSNumber.nan := rfl

@[simp] theorem JSNumber.num_sub_nan (a : ℚ) :
    JSNumber.num a - JSNumber.nan = JSNumber.nan := rfl

@[simp] theorem JSNumber.num_mul_nan (a : ℚ) :
    JSNumber.num a * JSNumber.nan = JSNumber.nan := rfl

theorem JSNumber.rem_zero (a : JSNumber) : JSNumber.rem a (JSNumber.num 0) = JSNumber.nan := by
  cases a <;> simp [JSNumber.rem]

theorem JSNumber.rem_num (a b : ℚ) (hb : b ≠ 0) :
    JSNumber.rem (JSNumber.num a) (JSNumber.num b) = JSNumber.num (fmod a b) := by
  simp [JSNumber.rem, hb]

theorem trunc_of_nonneg (q : ℚ) (h : 0 ≤ q) : trunc q = ⌊q⌋ := by
  simp [trunc, h]

theorem fmod_one_of_nonneg (a : ℚ) (h : 0 ≤ a) : fmod a 1 = Int.fract a := by
  unfold fmod
  rw [div_one, trunc_of_nonneg a h, one_mul, Int.self_sub_floor]

theorem fmod_mul_of_nonneg (t b : ℚ) (ht : 0 ≤ t) (hb : 0 < b) :
    fmod (t * b) b = b * Int.fract t := by
  unfold fmod
  rw [mul_div_assoc, div_self hb.ne', mul_one, trunc_of_nonneg t ht, ← Int.self_sub_floor]
  ring

theorem fmod_abs_lt (a b : ℚ) (hb : 0 < b) : -b < fmod a b ∧ fmod a b < b := by
  unfold fmod trunc
  have hab : a = b * (a / b) := by field_simp
  split_ifs with h
  · have h1 := Int.fract_nonneg (a / b)
    have h2 := Int.fract_lt_one (a / b)
    have e : a - b * (⌊a / b⌋ : ℚ) = b * Int.fract (a / b) := by
      rw [← Int.self_sub_floor]
      nth_rewrite 1 [hab]
      ring
    rw [e]
    constructor
    · nlinarith
    · nlinarith
  · have h1 := Int.le_ceil (a / b)
    have h2 := Int.ceil_lt_add_one (a / b)
    have e : a - b * (⌈a / b⌉ : ℚ) = b * (a / b - ⌈a / b⌉) := by
      nth_rewrite 1 [hab]
      ring
    rw [e]
    constructor
    · nlinarith
    · nlinarith

theorem fmod_of_nonneg (a b : ℚ) (ha : 0 ≤ a) (hb : 0 < b) : 0 ≤ fmod a b ∧ fmod a b < b := by
  refine ⟨?_, (fmod_abs_lt a b hb).2⟩
  unfold fmod
  rw [trunc_of_nonneg _ (div_nonneg ha hb.le)]
  have h1 := Int.floor_le (a / b)
  have hab : a = b * (a / b) := by field_simp
  nlinarith

theorem applyDirection_of_nonneg (t phase : ℚ) (direction : String) (h : 0 ≤ t + phase) :
    applyDirection t phase direction
      = if direction = "counter" then 1 - Int.fract (t + phase) else Int.fract (t + phase) := by
  unfold applyDirection
  rw [fmod_one_of_nonneg _ h]
  by_cases hd : direction = "counter" <;> simp [hd]

theorem applyDirection_add_one (t phase : ℚ) (direction : String) (h : 0 ≤ t + phase) :
    applyDirection (t + 1) phase direction = applyDirection t phase direction := by
  have h2 : 0 ≤ t + 1 + phase := by linarith
  rw [applyDirection_of_nonneg _ _ _ h, applyDirection_of_nonneg _ _ _ h2,
    show t + 1 + phase = t + phase + 1 by ring, Int.fract_add_one]

theorem applyDirection_range (t phase : ℚ) (direction : String) (h : 0 ≤ t + phase) :
    0 ≤ applyDirection t phase direction ∧ applyDirection t phase direction ≤ 1 := by
  rw [applyDirection_of_nonneg _ _ _ h]
  have h1 := Int.fract_nonneg (t + phase)
  have h2 := Int.fract_lt_one (t + phase)
  split_ifs <;> constructor <;> linarith

/-- C13: every path function has period one: for every type, centre, size, box, index and
direction, every phase and every `t` that are not negative, the path returned by
`getPathByType` takes at `t + 1` the value it takes at `t` (the same point; when a
coordinate is `NaN` it is `NaN` at both times). -/
theorem getPathByType_periodic (M : HostMath) (type : String) (centerX centerY size : ℚ)
    (box : Box) (phase : ℚ) (index : Nat) (direction : String) (t : ℚ)
    (hphase : 0 ≤ phase) (ht : 0 ≤ t) :
    getPathByType M type centerX centerY size box phase index direction (t + 1)
      = getPathByType M type centerX centerY size box phase index direction t := by
  have h : 0 ≤ t + phase := by linarith
  have key : ∀ d : String, applyDirection (t + 1) phase d = applyDirection t phase d :=
    fun d => applyDirection_add_one t phase d h
  unfold getPathByType
  by_cases h1 : (type == "random") = true
  · simp only [h1, ↓reduceIte, key]
  · by_cases h2 : (type == "matrix") = true
    · simp only [h1, h2, Bool.false_eq_true, ↓reduceIte, key]
    · by_cases h3 : (type == "teleportation") = true
      · simp only [h1, h2, h3, Bool.false_eq_true, ↓reduceIte, key]
      · simp only [h1, h2, h3, Bool.false_eq_true, ↓reduceIte, key]

/-- Witness for C13: the square of size 30 around (22, 22) at `t = 1/4` and `t = 5/4`. -/
theorem getPathByType_periodic_witness :
    (0 : ℚ) ≤ 0 ∧ (0 : ℚ) ≤ 1 / 4 ∧
    getPathByType sampleHost "square" 22 22 30 ⟨300, 200, 12⟩ 0 0 "clockwise" (1 / 4 + 1)
      = getPathByType sampleHost "square" 22 22 30 ⟨300, 200, 12⟩ 0 0 "clockwise" (1 / 4) :=
  ⟨le_refl 0, by norm_num,
    getPathByType_periodic sampleHost "square" 22 22 30 ⟨300, 200, 12⟩ 0 0 "clockwise"
      (1 / 4) (le_refl 0) (by norm_num)⟩

/-- C14: for `t + phase ≥ 0`, `applyDirection(t, phase, direction)` is `1 − ((t + phase) mod 1)`
when `direction` is `"counter"` and `(t + phase) mod 1` for any other direction; in
particular for `t ≥ 0`, `applyDirection(t, 0, "clockwise")` is `t mod 1` and
`applyDirection(t, 0, "counter")` is `1 − (t mod 1)`.  Here `x mod 1` is the fractional part
of `x`. -/
theorem applyDirection_spec (t phase : ℚ) (direction : String) :
    (0 ≤ t → applyDirection t 0 "clockwise" = Int.fract t ∧
      applyDirection t 0 "counter" = 1 - Int.fract t) ∧
    (0 ≤ t + phase → applyDirection t phase direction
      = if direction = "counter" then 1 - Int.fract (t + phase) else Int.fract (t + phase)) := by
  refine ⟨fun ht => ⟨?_, ?_⟩, applyDirection_of_nonneg t phase direction⟩
  · rw [applyDirection_of_nonneg t 0 _ (by linarith), add_zero]
    simp
  · rw [applyDirection_of_nonneg t 0 _ (by linarith), add_zero]
    simp

/-- Witness for C14: `t = 5/4`. -/
theorem applyDirection_spec_witness :
    (0 : ℚ) ≤ 5 / 4 ∧ applyDirection (5 / 4) 0 "clockwise" = Int.fract (5 / 4 : ℚ) ∧
    applyDirection (5 / 4) 0 "counter" = 1 - Int.fract (5 / 4 : ℚ) :=
  ⟨by norm_num, (applyDirection_spec (5 / 4) 0 "clockwise").1 (by norm_num)⟩

/-- C18: the alphabet returned by `getCleanAlphabet()` contains none of the glyphs `0`, `O`,
`1`, `I`, `L`, and no character twice. -/
theorem getCleanAlphabet_unambiguous :
    (∀ c ∈ ['0', 'O', '1', 'I', 'L'], c ∉ getCleanAlphabet.toList) ∧
    getCleanAlphabet.toList.Nodup := by
  decide


theorem getSquarePath_of_pos (size centerX centerY t : ℚ) (hs : 0 < size) (ht : 0 ≤ t) :
    getSquarePath size centerX centerY t =
      if Int.fract t < 1 / 4 then
        { x := .num (centerX - size / 2 + 4 * (size * Int.fract t)),
          y := .num (centerY - size / 2) }
      else if Int.fract t < 1 / 2 then
        { x := .num (centerX + size / 2),
          y := .num (centerY - size / 2 + (4 * (size * Int.fract t) - size)) }
      else if Int.fract t < 3 / 4 then
        { x := .num (centerX + size / 2 - (4 * (size * Int.fract t) - 2 * size)),
          y := .num (centerY + size / 2) }
      else
        { x := .num (centerX - size / 2),
          y := .num (centerY + size / 2 - (4 * (size * Int.fract t) - 3 * size)) } := by
  have hP : (4 * (size / 2) * 2 : ℚ) ≠ 0 := by
    have : (0 : ℚ) < 4 * (size / 2) * 2 := by linarith
    exact this.ne'
  have hd : fmod (t * (4 * (size / 2) * 2)) (4 * (size / 2) * 2)
      = 4 * (size * Int.fract t) := by
    rw [fmod_mul_of_nonneg t _ ht (by linarith)]
    ring
  have h1 : Int.fract t < 1 / 4 ↔ size * Int.fract t < size * (1 / 4) :=
    (mul_lt_mul_left hs).symm
  have h2 : Int.fract t < 1 / 2 ↔ size * Int.fract t < size * (1 / 2) :=
    (mul_lt_mul_left hs).symm
  have h3 : Int.fract t < 3 / 4 ↔ size * Int.fract t < size * (3 / 4) :=
    (mul_lt_mul_left hs).symm
  unfold getSquarePath
  simp only [JSNumber.rem_num _ _ hP, hd, JSNumber.num_lt, JSNumber.num_sub, JSNumber.num_add,
    decide_eq_true_eq, h1, h2, h3]
  generalize size * Int.fract t = g
  split_ifs <;> first
    | (exfalso; linarith)
    | (congr 2 <;> ring)

theorem getSquarePath_near (size centerX centerY t : ℚ) (hs : 0 < size) (ht : 0 ≤ t) :
    ∃ x y, getSquarePath size centerX centerY t = { x := .num x, y := .num y } ∧
      max |x - centerX| |y - centerY| = size / 2 := by
  rw [getSquarePath_of_pos size centerX centerY t hs ht]
  have f0 := Int.fract_nonneg t
  have f1 := Int.fract_lt_one t
  have g0 : 0 ≤ size * Int.fract t := mul_nonneg hs.le f0
  have hh : (0 : ℚ) ≤ size / 2 := by linarith
  split_ifs with h1 h2 h3
  · refine ⟨_, _, rfl, ?_⟩
    have hg : size * Int.fract t < size * (1 / 4) := (mul_lt_mul_left hs).mpr h1
    have e2 : |centerY - size / 2 - centerY| = size / 2 := by
      rw [show centerY - size / 2 - centerY = -(size / 2) by ring, abs_neg, abs_of_nonneg hh]
    rw [e2]
    exact max_eq_right (abs_le.mpr ⟨by linarith, by linarith⟩)
  · refine ⟨_, _, rfl, ?_⟩
    have hg1 : size * (1 / 4) ≤ size * Int.fract t := (mul_le_mul_left hs).mpr (not_lt.mp h1)
    have hg2 : size * Int.fract t < size * (1 / 2) := (mul_lt_mul_left hs).mpr h2
    have e1 : |centerX + size / 2 - centerX| = size / 2 := by
      rw [show centerX + size / 2 - centerX = size / 2 by ring, abs_of_nonneg hh]
    rw [e1]
    exact max_eq_left (abs_le.mpr ⟨by linarith, by linarith⟩)
  · refine ⟨_, _, rfl, ?_⟩
    have hg1 : size * (1 / 2) ≤ size * Int.fract t := (mul_le_mul_left hs).mpr (not_lt.mp h2)
    have hg2 : size * Int.fract t < size * (3 / 4) := (mul_lt_mul_left hs).mpr h3
    have e2 : |centerY + size / 2 - centerY| = size / 2 := by
      rw [show centerY + size / 2 - centerY = size / 2 by ring, abs_of_nonneg hh]
    rw [e2]
    exact max_eq_right (abs_le.mpr ⟨by linarith, by linarith⟩)
  · refine ⟨_, _, rfl, ?_⟩
    have hg1 : size * (3 / 4) ≤ size * Int.fract t := (mul_le_mul_left hs).mpr (not_lt.mp h3)
    have hg2 : size * Int.fract t < size * 1 := (mul_lt_mul_left hs).mpr f1
    have e1 : |centerX - size / 2 - centerX| = size / 2 := by
      rw [show centerX - size / 2 - centerX = -(size / 2) by ring, abs_neg, abs_of_nonneg hh]
    rw [e1]
    exact max_eq_left (abs_le.mpr ⟨by linarith, by linarith⟩)

/-- C19: for `size > 0` and `t ≥ 0`, `getSquarePath(size, cx, cy)(t)` lies on the perimeter
of the square of half-width `size / 2` centred at `(cx, cy)`: `max(|x − cx|, |y − cy|)` is
`size / 2`.  It starts at the top-left corner `(cx − size/2, cy − size/2)` at `t = 0` and
spends a quarter of the period on each edge: the top edge from left to right while the
fractional part of `t` is below `1/4`, then the right edge downwards, the bottom edge from
right to left and the left edge upwards. -/
theorem getSquarePath_perimeter (size centerX centerY t : ℚ) (hs : 0 < size) (ht : 0 ≤ t) :
    (∃ x y, getSquarePath size centerX centerY t = { x := .num x, y := .num y } ∧
      max |x - centerX| |y - centerY| = size / 2) ∧
    getSquarePath size centerX centerY 0
      = { x := .num (centerX - size / 2), y := .num (centerY - size / 2) } ∧
    (Int.fract t < 1 / 4 → getSquarePath size centerX centerY t
      = { x := .num (centerX - size / 2 + 4 * size * Int.fract t),
          y := .num (centerY - size / 2) }) ∧
    (1 / 4 ≤ Int.fract t → Int.fract t < 1 / 2 → getSquarePath size centerX centerY t
      = { x := .num (centerX + size / 2),
          y := .num (centerY - size / 2 + 4 * size * (Int.fract t - 1 / 4)) }) ∧
    (1 / 2 ≤ Int.fract t → Int.fract t < 3 / 4 → getSquarePath size centerX centerY t
      = { x := .num (centerX + size / 2 - 4 * size * (Int.fract t - 1 / 2)),
          y := .num (centerY + size / 2) }) ∧
    (3 / 4 ≤ Int.fract t → getSquarePath size centerX centerY t
      = { x := .num (centerX - size / 2),
          y := .num (centerY + size / 2 - 4 * size * (Int.fract t - 3 / 4)) }) := by
  refine ⟨getSquarePath_near size centerX centerY t hs ht, ?_, ?_, ?_, ?_, ?_⟩
  · rw [getSquarePath_of_pos size centerX centerY 0 hs (le_refl 0)]
    simp
  · intro h1
    rw [getSquarePath_of_pos size centerX centerY t hs ht, if_pos h1]
    congr 2
    ring
  · intro h1 h2
    rw [getSquarePath_of_pos size centerX centerY t hs ht, if_neg (not_lt.mpr h1), if_pos h2]
    congr 2
    ring
  · intro h2 h3
    rw [getSquarePath_of_pos size centerX centerY t hs ht,
      if_neg (not_lt.mpr (le_trans (by norm_num) h2)), if_neg (not_lt.mpr h2), if_pos h3]
    congr 2
    ring
  · intro h3
    rw [getSquarePath_of_pos size centerX centerY t hs ht,
      if_neg (not_lt.mpr (le_trans (by norm_num) h3)),
      if_neg (not_lt.mpr (le_trans (by norm_num) h3)), if_neg (not_lt.mpr h3)]
    congr 2
    ring

/-- Witness for C19: the square of size 30 around (22, 22) at `t = 3/8`, on the right edge. -/
theorem getSquarePath_perimeter_witness :
    (0 : ℚ) < 30 ∧ (0 : ℚ) ≤ 3 / 8 ∧
    ∃ x y, getSquarePath 30 22 22 (3 / 8) = { x := .num x, y := .num y } ∧
      max |x - 22| |y - 22| = 30 / 2 :=
  ⟨by norm_num, by norm_num,
    (getSquarePath_perimeter 30 22 22 (3 / 8) (by norm_num) (by norm_num)).1⟩

theorem getPathByType_matrix (M : HostMath) (centerX centerY size : ℚ) (box : Box)
    (phase : ℚ) (index : Nat) (direction : String) (t : ℚ) (hh : box.height ≠ 0) :
    getPathByType M "matrix" centerX centerY size box phase index direction t =
      { x := .num centerX,
        y := .num (box.padding + fmod (fmod (centerY - box.padding
          + (if direction == "counter" then -1 else 1) * applyDirection t phase direction
            * (0.3 + ((index % 7 : Nat) : ℚ) * 0.1) * box.height) box.height + box.height)
          box.height) } := by
  have h1 : ("matrix" == "random") = false := by decide
  have h2 : ("matrix" == "matrix") = true := by decide
  unfold getPathByType
  simp only [h1, h2, Bool.false_eq_true, ↓reduceIte, JSNumber.rem_num _ _ hh,
    JSNumber.num_add]

/-- C20: in the `"matrix"` mode of `getPathByType`, for a box of positive height and every
centre, index, phase, direction and `t`: the returned `x` is `centerX`; the returned `y`
is a number with `padding ≤ y < padding + height`, the offset being wrapped modulo the box
height; the scroll speed is `0.3 + (index mod 7) × 0.1`, so two indices congruent modulo 7
give the same path. -/
theorem getPathByType_matrix_wraps (M : HostMath) (centerX centerY size : ℚ) (box : Box)
    (phase : ℚ) (index : Nat) (direction : String) (t : ℚ) (hh : 0 < box.height) :
    (getPathByType M "matrix" centerX centerY size box phase index direction t).x
      = .num centerX ∧
    (∃ y, (getPathByType M "matrix" centerX centerY size box phase index direction t).y
        = .num y ∧ box.padding ≤ y ∧ y < box.padding + box.height) ∧
    (getPathByType M "matrix" centerX centerY size box phase index direction t).y
      = .num (box.padding + fmod (fmod (centerY - box.padding
          + (if direction == "counter" then -1 else 1) * applyDirection t phase direction
            * (0.3 + ((index % 7 : Nat) : ℚ) * 0.1) * box.height) box.height + box.height)
          box.height) ∧
    (∀ index2 : Nat, index2 % 7 = index % 7 →
      getPathByType M "matrix" centerX centerY size box phase index2 direction t
        = getPathByType M "matrix" centerX centerY size box phase index direction t) := by
  have h0 : box.height ≠ 0 := hh.ne'
  refine ⟨?_, ?_, ?_, ?_⟩
  · rw [getPathByType_matrix M _ _ _ _ _ _ _ _ h0]
  · rw [getPathByType_matrix M _ _ _ _ _ _ _ _ h0]
    refine ⟨_, rfl, ?_, ?_⟩
    · have h1 := fmod_abs_lt (centerY - box.padding
          + (if direction == "counter" then -1 else 1) * applyDirection t phase direction
            * (0.3 + ((index % 7 : Nat) : ℚ) * 0.1) * box.height) box.height hh
      have h2 := fmod_of_nonneg _ box.height (by linarith [h1.1] : (0 : ℚ) ≤ fmod (centerY
          - box.padding + (if direction == "counter" then -1 else 1)
            * applyDirection t phase direction
            * (0.3 + ((index % 7 : Nat) : ℚ) * 0.1) * box.height) box.height + box.height) hh
      linarith [h2.1]
    · have h2 := fmod_abs_lt (fmod (centerY - box.padding
          + (if direction == "counter" then -1 else 1) * applyDirection t phase direction
            * (0.3 + ((index % 7 : Nat) : ℚ) * 0.1) * box.height) box.height + box.height)
          box.height hh
      linarith [h2.2]
  · rw [getPathByType_matrix M _ _ _ _ _ _ _ _ h0]
  · intro index2 hi
    rw [getPathByType_matrix M _ _ _ _ _ _ _ _ h0, getPathByType_matrix M _ _ _ _ _ _ _ _ h0,
      hi]

/-- Witness for C20: the box of 300 by 200 with padding 12. -/
theorem getPathByType_matrix_wraps_witness :
    (0 : ℚ) < (⟨300, 200, 12⟩ : Box).height ∧
    (getPathByType sampleHost "matrix" 50 60 10 ⟨300, 200, 12⟩ 0 3 "counter" (1 / 3)).x
      = .num 50 :=
  ⟨by norm_num, (getPathByType_matrix_wraps sampleHost 50 60 10 ⟨300, 200, 12⟩ 0 3
    "counter" (1 / 3) (by norm_num)).1⟩

theorem getPathByType_square (M : HostMath) (centerX centerY size : ℚ) (box : Box)
    (phase : ℚ) (index : Nat) (direction : String) (t : ℚ) :
    getPathByType M "square" centerX centerY size box phase index direction t
      = getSquarePath size centerX centerY (applyDirection t phase direction) := by
  have h1 : ("square" == "random") = false := by decide
  have h2 : ("square" == "matrix") = false := by decide
  have h3 : ("square" == "teleportation") = false := by decide
  have h4 : ("square" == "circle") = false := by decide
  have h5 : ("square" == "square") = true := by decide
  have h6 : ("square" == "triangle") = false := by decide
  unfold getPathByType
  simp only [h1, h2, h3, h4, h5, h6, Bool.false_eq_true, ↓reduceIte]

theorem getSquarePath_zero (centerX centerY t : ℚ) :
    getSquarePath 0 centerX centerY t = { x := .num centerX, y := .nan } := by
  have h0 : (4 * ((0 : ℚ) / 2) * 2) = 0 := by norm_num
  unfold getSquarePath
  simp only [h0, JSNumber.rem_zero, JSNumber.nan_lt, Bool.false_eq_true, ↓reduceIte,
    JSNumber.nan_sub, JSNumber.num_sub_nan]
  norm_num

theorem separate_size_zero (box : Box) :
    min box.width box.height * 0.15 * shapeRadiusToFactor 0 = 0 := by
  simp [shapeRadiusToFactor]

theorem global_size_zero (box : Box) :
    min box.width box.height * 0.35 * shapeRadiusToFactor 0 = 0 := by
  simp [shapeRadiusToFactor]

/-- C12, at the failing input: with `shapeRadius = 0` the square path does not collapse to
its centre.  Its perimeter is `0`, the remainder `(t * perimeter) % perimeter` is `NaN`, the
three comparisons fail and the last branch returns `x = centerX` and `y = NaN`, in the
separate style and in the global style alike. -/
theorem square_path_zero_radius_nan (M : HostMath) (box : Box) (baseX baseY : ℚ)
    (index totalChars : Nat) (center : Point) (direction : String) (t : ℚ) :
    getSeparateMovementPath M "square" box baseX baseY index 0 direction t
      = { x := .num baseX, y := .nan } ∧
    getGlobalMovementPath M "square" box index totalChars center 0 direction t
      = { x := .num center.x, y := .nan } := by
  constructor
  · unfold getSeparateMovementPath
    simp only [separate_size_zero, getPathByType_square, getSquarePath_zero]
  · unfold getGlobalMovementPath
    simp only [global_size_zero, getPathByType_square, getSquarePath_zero]

theorem getTrianglePath_zero (M : HostMath) (h0 : M.hypot 0 0 = 0) (centerX centerY t : ℚ) :
    getTrianglePath M 0 centerX centerY t = { x := .nan, y := .nan } := by
  unfold getTrianglePath dist lerp
  simp [h0, JSNumber.rem_zero]

theorem collapsed_paths_zero_size (M : HostMath) (centerX centerY t : ℚ) :
    getCirclePath M (0 / 2) centerX centerY t = { x := .num centerX, y := .num centerY } ∧
    getZPath 0 centerX centerY t = { x := .num centerX, y := .num centerY } ∧
    getFigure8Path M 0 centerX centerY t = { x := .num centerX, y := .num centerY } ∧
    getInfinityPath M 0 centerX centerY t = { x := .num centerX, y := .num centerY } ∧
    getVibratePath M 0 centerX centerY t = { x := .num centerX, y := .num centerY } := by
  refine ⟨?_, ?_, ?_, ?_, ?_⟩
  · simp [getCirclePath]
  · unfold getZPath lerp
    simp only []
    split_ifs <;> simp
  · simp [getFigure8Path]
  · simp [getInfinityPath]
  · simp [getVibratePath]

theorem separate_phase_nonneg (index : Nat) : 0 ≤ fmod ((index : ℚ) * 0.17) 1 :=
  (fmod_of_nonneg _ 1 (mul_nonneg (Nat.cast_nonneg index) (by norm_num)) one_pos).1

theorem square_near_centre (size centerX centerY e : ℚ) (hs : 0 < size) (he : 0 ≤ e) :
    ∃ x y, getSquarePath size centerX centerY e = { x := .num x, y := .num y } ∧
      |x - centerX| ≤ size / 2 ∧ |y - centerY| ≤ size / 2 := by
  obtain ⟨x, y, hxy, hmax⟩ := getSquarePath_near size centerX centerY e hs he
  exact ⟨x, y, hxy, hmax ▸ le_max_left _ _, hmax ▸ le_max_right _ _⟩

/-- C11, as stated, fails: in the box of 300 by 200 with padding 12 and the neutral
`shapeRadius = 5`, the square path of the separate style centred at the position
`(22, 22)` that `randomPositionInBox` returns for the draws `0`, `0` starts at `(7, 7)`,
left of and above the box, whose coordinates begin at `12`. -/
theorem separate_square_leaves_box_counterexample :
    (randomPositionInBox ⟨300, 200, 12⟩ CHAR_SIZE Draw.zero Draw.zero).x = 22 ∧
    (randomPositionInBox ⟨300, 200, 12⟩ CHAR_SIZE Draw.zero Draw.zero).y = 22 ∧
    getSeparateMovementPath sampleHost "square" ⟨300, 200, 12⟩ 22 22 0 5 "clockwise" 0
      = { x := .num 7, y := .num 7 } ∧
    (7 : ℚ) < (⟨300, 200, 12⟩ : Box).padding := by
  refine ⟨by norm_num [randomPositionInBox, CHAR_SIZE, Draw.zero],
    by norm_num [randomPositionInBox, CHAR_SIZE, Draw.zero], ?_, by norm_num⟩
  unfold getSeparateMovementPath
  rw [getPathByType_square]
  have hsize : min (300 : ℚ) 200 * 0.15 * shapeRadiusToFactor 5 = 30 := by
    norm_num [shapeRadiusToFactor]
  have he : applyDirection 0 (fmod (((0 : Nat) : ℚ) * 0.17) 1) "clockwise" = 0 := by
    rw [applyDirection_of_nonneg _ _ _ (by norm_num [fmod, trunc])]
    have hd : ¬ "clockwise" = "counter" := by decide
    norm_num [fmod, trunc, hd]
  simp only [hsize, he]
  rw [getSquarePath_of_pos 30 22 22 0 (by norm_num) (le_refl 0)]
  norm_num

theorem randomPositionInBox_margins (box : Box) (u v : Draw)
    (hw : 2 * CHAR_SIZE ≤ box.width) (hh : 2 * CHAR_SIZE ≤ box.height) :
    box.padding + CHAR_SIZE / 2 ≤ (randomPositionInBox box CHAR_SIZE u v).x ∧
    (randomPositionInBox box CHAR_SIZE u v).x ≤ box.padding + box.width - CHAR_SIZE ∧
    box.padding + CHAR_SIZE / 2 ≤ (randomPositionInBox box CHAR_SIZE u v).y ∧
    (randomPositionInBox box CHAR_SIZE u v).y ≤ box.padding + box.height - CHAR_SIZE := by
  unfold CHAR_SIZE at hw hh ⊢
  simp only [randomPositionInBox]
  have hx : max 0 (box.width - 20 - 20 / 2) = box.width - 20 - 20 / 2 :=
    max_eq_right (by linarith)
  have hy : max 0 (box.height - 20 - 20 / 2) = box.height - 20 - 20 / 2 :=
    max_eq_right (by linarith)
  rw [hx, hy]
  have hxw : 0 ≤ box.width - 20 - 20 / 2 := by linarith
  have hyh : 0 ≤ box.height - 20 - 20 / 2 := by linarith
  have h1 : 0 ≤ u.val * (box.width - 20 - 20 / 2) := mul_nonneg u.nonneg hxw
  have h2 : u.val * (box.width - 20 - 20 / 2) ≤ 1 * (box.width - 20 - 20 / 2) :=
    mul_le_mul_of_nonneg_right u.lt_one.le hxw
  have h3 : 0 ≤ v.val * (box.height - 20 - 20 / 2) := mul_nonneg v.nonneg hyh
  have h4 : v.val * (box.height - 20 - 20 / 2) ≤ 1 * (box.height - 20 - 20 / 2) :=
    mul_le_mul_of_nonneg_right v.lt_one.le hyh
  refine ⟨by linarith, by linarith, by linarith, by linarith⟩

theorem getNoiseMovementPath_eq_separate (M : HostMath) (type : String) (box : Box)
    (index : Nat) (baseX baseY shapeRadius : ℚ) (direction : String) :
    getNoiseMovementPath M type box index baseX baseY shapeRadius direction
      = getSeparateMovementPath M type box baseX baseY index shapeRadius direction := rfl

/-- C11, amended: the square path of the separate style stays within `size / 2` of its
centre, not within the box in general.  For every box with width and height at least
`2 × CHAR_SIZE`, every `shapeRadius ≥ 1` (so every one of `1..10`), every position
`(x0, y0)` that `randomPositionInBox` can return, every index, direction and `t ≥ 0`, the
point `(x, y)` returned by the square path that `getSeparateMovementPath` and
`getNoiseMovementPath` build around `(x0, y0)` satisfies `|x − x0| ≤ size/2` and
`|y − y0| ≤ size/2` with `size = 0.15 × min(width, height) × shapeRadius/5`; it satisfies
`padding ≤ x ≤ padding + width` and `padding ≤ y ≤ padding + height` whenever
`size ≤ CHAR_SIZE`. -/
theorem separate_square_near_centre (M : HostMath) (box : Box) (shapeRadius : ℚ) (u v : Draw)
    (index : Nat) (direction : String) (t : ℚ)
    (hw : 2 * CHAR_SIZE ≤ box.width) (hh : 2 * CHAR_SIZE ≤ box.height)
    (hr : 1 ≤ shapeRadius) (ht : 0 ≤ t) :
    ∃ x y,
      getSeparateMovementPath M "square" box (randomPositionInBox box CHAR_SIZE u v).x
        (randomPositionInBox box CHAR_SIZE u v).y index shapeRadius direction t
        = { x := .num x, y := .num y } ∧
      getNoiseMovementPath M "square" box index (randomPositionInBox box CHAR_SIZE u v).x
        (randomPositionInBox box CHAR_SIZE u v).y shapeRadius direction t
        = { x := .num x, y := .num y } ∧
      |x - (randomPositionInBox box CHAR_SIZE u v).x|
        ≤ 0.15 * min box.width box.height * (shapeRadius / 5) / 2 ∧
      |y - (randomPositionInBox box CHAR_SIZE u v).y|
        ≤ 0.15 * min box.width box.height * (shapeRadius / 5) / 2 ∧
      (0.15 * min box.width box.height * (shapeRadius / 5) ≤ CHAR_SIZE →
        box.padding ≤ x ∧ x ≤ box.padding + box.width ∧
        box.padding ≤ y ∧ y ≤ box.padding + box.height) := by
  have hm := randomPositionInBox_margins box u v hw hh
  generalize (randomPositionInBox box CHAR_SIZE u v).x = x0 at hm ⊢
  generalize (randomPositionInBox box CHAR_SIZE u v).y = y0 at hm ⊢
  have hmin : (40 : ℚ) ≤ min box.width box.height := by
    unfold CHAR_SIZE at hw hh
    exact le_min (by linarith) (by linarith)
  have hsize : 0 < min box.width box.height * 0.15 * shapeRadiusToFactor shapeRadius := by
    unfold shapeRadiusToFactor
    have h5 : (0 : ℚ) < shapeRadius / 5 := by
      apply div_pos <;> linarith
    have h6 : (0 : ℚ) < min box.width box.height * 0.15 := by
      apply mul_pos <;> linarith
    exact mul_pos h6 h5
  have he := (applyDirection_range t _ direction
    (add_nonneg ht (separate_phase_nonneg index))).1
  obtain ⟨x, y, hxy, hx, hy⟩ := square_near_centre _ x0 y0 _ hsize he
  have hsz : min box.width box.height * 0.15 * shapeRadiusToFactor shapeRadius
      = 0.15 * min box.width box.height * (shapeRadius / 5) := by
    unfold shapeRadiusToFactor
    ring
  rw [hsz] at hx hy
  refine ⟨x, y, ?_, ?_, hx, hy, ?_⟩
  · unfold getSeparateMovementPath
    rw [getPathByType_square]
    exact hxy
  · rw [getNoiseMovementPath_eq_separate]
    unfold getSeparateMovementPath
    rw [getPathByType_square]
    exact hxy
  · intro hle
    unfold CHAR_SIZE at hle hm
    rw [abs_le] at hx hy
    refine ⟨by linarith [hx.1], by linarith [hx.2], by linarith [hy.1], by linarith [hy.2]⟩

/-- Witness for C11 amended: the box of 100 by 100 with padding 12 and `shapeRadius = 5`,
where `size = 15` does not exceed `CHAR_SIZE`. -/
theorem separate_square_near_centre_witness :
    2 * CHAR_SIZE ≤ (⟨100, 100, 12⟩ : Box).width ∧
    2 * CHAR_SIZE ≤ (⟨100, 100, 12⟩ : Box).height ∧ (1 : ℚ) ≤ 5 ∧ (0 : ℚ) ≤ 0 ∧
    ∃ x y,
      getSeparateMovementPath sampleHost "square" ⟨100, 100, 12⟩
        (randomPositionInBox ⟨100, 100, 12⟩ CHAR_SIZE Draw.zero Draw.zero).x
        (randomPositionInBox ⟨100, 100, 12⟩ CHAR_SIZE Draw.zero Draw.zero).y 0 5
        "clockwise" 0 = { x := .num x, y := .num y } ∧
      getNoiseMovementPath sampleHost "square" ⟨100, 100, 12⟩ 0
        (randomPositionInBox ⟨100, 100, 12⟩ CHAR_SIZE Draw.zero Draw.zero).x
        (randomPositionInBox ⟨100, 100, 12⟩ CHAR_SIZE Draw.zero Draw.zero).y 5
        "clockwise" 0 = { x := .num x, y := .num y } ∧
      |x - (randomPositionInBox ⟨100, 100, 12⟩ CHAR_SIZE Draw.zero Draw.zero).x|
        ≤ 0.15 * min (⟨100, 100, 12⟩ : Box).width (⟨100, 100, 12⟩ : Box).height
          * ((5 : ℚ) / 5) / 2 ∧
      |y - (randomPositionInBox ⟨100, 100, 12⟩ CHAR_SIZE Draw.zero Draw.zero).y|
        ≤ 0.15 * min (⟨100, 100, 12⟩ : Box).width (⟨100, 100, 12⟩ : Box).height
          * ((5 : ℚ) / 5) / 2 ∧
      (0.15 * min (⟨100, 100, 12⟩ : Box).width (⟨100, 100, 12⟩ : Box).height
          * ((5 : ℚ) / 5) ≤ CHAR_SIZE →
        (⟨100, 100, 12⟩ : Box).padding ≤ x ∧
        x ≤ (⟨100, 100, 12⟩ : Box).padding + (⟨100, 100, 12⟩ : Box).width ∧
        (⟨100, 100, 12⟩ : Box).padding ≤ y ∧
        y ≤ (⟨100, 100, 12⟩ : Box).padding + (⟨100, 100, 12⟩ : Box).height) :=
  ⟨by norm_num [CHAR_SIZE], by norm_num [CHAR_SIZE], by norm_num, le_refl 0,
    separate_square_near_centre sampleHost ⟨100, 100, 12⟩ 5 Draw.zero Draw.zero 0
      "clockwise" 0 (by norm_num [CHAR_SIZE]) (by norm_num [CHAR_SIZE]) (by norm_num)
      (le_refl 0)⟩

/-- C15: noise characters use the sizing and phase rule of the separate style.
`getNoiseMovementPath(type, box, index, baseX, baseY, shapeRadius, direction)` is the same
function of `t` as `getSeparateMovementPath(type, box, baseX, baseY, index, shapeRadius,
direction)`, namely `getPathByType` with centre `(baseX, baseY)`,
`size = 0.15 × min(width, height) × (shapeRadius / 5)` and `phase = (index × 0.17) mod 1`
(the fractional part); and on a placement that is not of the solution `getPathForPlacement`
returns this path with `options.noiseMovement` and `options.noiseDirection`, whatever
`options.solutionStyle` is. -/
theorem getNoiseMovementPath_separate_rule (M : HostMath) (type : String) (box : Box)
    (index : Nat) (baseX baseY shapeRadius : ℚ) (direction : String) :
    getNoiseMovementPath M type box index baseX baseY shapeRadius direction
      = getSeparateMovementPath M type box baseX baseY index shapeRadius direction ∧
    getNoiseMovementPath M type box index baseX baseY shapeRadius direction
      = getPathByType M type baseX baseY
          (0.15 * min box.width box.height * (shapeRadius / 5)) box
          (Int.fract ((index : ℚ) * 0.17)) index direction ∧
    (∀ (placement : Placement) (placements : List Placement) (options : Options),
      placement.isSolution = false →
      getPathForPlacement M placement placements box options
        = getNoiseMovementPath M options.noiseMovement box placement.index placement.x
            placement.y options.shapeRadius options.noiseDirection) := by
  refine ⟨rfl, ?_, ?_⟩
  · unfold getNoiseMovementPath shapeRadiusToFactor
    simp only []
    rw [fmod_one_of_nonneg _ (mul_nonneg (Nat.cast_nonneg index) (by norm_num)),
      show min box.width box.height * 0.15 * (shapeRadius / 5)
        = 0.15 * min box.width box.height * (shapeRadius / 5) by ring]
  · intro placement placements options hp
    unfold getPathForPlacement
    simp [hp]

/-- Witness for C15: a noise placement under the global solution style. -/
theorem getNoiseMovementPath_separate_rule_witness :
    (⟨'X', 50, 60, false, 3⟩ : Placement).isSolution = false ∧
    getPathForPlacement sampleHost ⟨'X', 50, 60, false, 3⟩ [] ⟨300, 200, 12⟩
        ⟨"global", "circle", "square", "clockwise", "counter", 5, ⟨100, 100⟩⟩
      = getNoiseMovementPath sampleHost "square" ⟨300, 200, 12⟩ 3 50 60 5 "counter" :=
  ⟨rfl, (getNoiseMovementPath_separate_rule sampleHost "square" ⟨300, 200, 12⟩ 3 50 60 5
    "counter").2.2 ⟨'X', 50, 60, false, 3⟩ []
    ⟨"global", "circle", "square", "clockwise", "counter", 5, ⟨100, 100⟩⟩ rfl⟩

theorem applyDirection_shift (t phase : ℚ) (direction : String) :
    applyDirection t phase direction = applyDirection (t + phase) 0 direction := by
  unfold applyDirection
  rw [add_zero]

theorem global_phase (i n : Nat) (hi : i < n) :
    fmod ((i : ℚ) / (n : ℚ)) 1 = (i : ℚ) / (n : ℚ) := by
  have hn : (0 : ℚ) < n := by exact_mod_cast (Nat.lt_of_le_of_lt (Nat.zero_le i) hi)
  have h0 : (0 : ℚ) ≤ (i : ℚ) / n := div_nonneg (Nat.cast_nonneg i) hn.le
  have h1 : (i : ℚ) / n < 1 := by
    rw [div_lt_one hn]
    exact_mod_cast hi
  rw [fmod_one_of_nonneg _ h0]
  exact Int.fract_eq_self.mpr ⟨h0, h1⟩

/-- C16: in the global style the solution characters are beads on one curve.  For every
closed shape (circle, square, triangle, z, 8, infinity, vibrate), box, centre,
`shapeRadius`, direction, count `n > 1`, index `i < n` and `t`, the path of character `i`
at `t` is the path of character `0` at `t + i/n`; the path of character `i` is
`getPathByType` with the shared centre, `size = 0.35 × min(width, height) ×
(shapeRadius / 5)` and phase `i/n`; and `getPathForPlacement` on a solution placement in the
global style returns it from `options.globalCenter`, without reading the placement's own
`x`, `y`. -/
theorem getGlobalMovementPath_beads (M : HostMath) (shape : String) (box : Box)
    (center : Point) (shapeRadius : ℚ) (direction : String) (n i : Nat) (t : ℚ)
    (hshape : shape ∈ ["circle", "square", "triangle", "z", "8", "infinity", "vibrate"])
    (hn : 1 < n) (hi : i < n) :
    getGlobalMovementPath M shape box i n center shapeRadius direction t
      = getGlobalMovementPath M shape box 0 n center shapeRadius direction
          (t + (i : ℚ) / (n : ℚ)) ∧
    getGlobalMovementPath M shape box i n center shapeRadius direction
      = getPathByType M shape center.x center.y
          (0.35 * min box.width box.height * (shapeRadius / 5)) box ((i : ℚ) / (n : ℚ)) i
          direction ∧
    (∀ (placement : Placement) (placements : List Placement) (options : Options),
      placement.isSolution = true → options.solutionStyle = "global" →
      getPathForPlacement M placement placements box options
        = getGlobalMovementPath M options.solutionShape box placement.index
            (placements.filter (fun p => p.isSolution)).length options.globalCenter
            options.shapeRadius options.solutionDirection) := by
  have h1 : (shape == "random") = false := by
    rw [beq_eq_false_iff_ne]
    rintro rfl
    revert hshape
    decide
  have h2 : (shape == "matrix") = false := by
    rw [beq_eq_false_iff_ne]
    rintro rfl
    revert hshape
    decide
  have h3 : (shape == "teleportation") = false := by
    rw [beq_eq_false_iff_ne]
    rintro rfl
    revert hshape
    decide
  have h0n : 0 < n := by omega
  refine ⟨?_, ?_, ?_⟩
  · unfold getGlobalMovementPath getPathByType
    simp only [h1, h2, h3, Bool.false_eq_true, ↓reduceIte, hn, global_phase i n hi,
      global_phase 0 n h0n]
    rw [applyDirection_shift t, applyDirection_shift (t + (i : ℚ) / (n : ℚ))]
    simp
  · unfold getGlobalMovementPath shapeRadiusToFactor
    simp only [hn, ↓reduceIte, global_phase i n hi]
    rw [show min box.width box.height * 0.35 * (shapeRadius / 5)
        = 0.35 * min box.width box.height * (shapeRadius / 5) by ring]
  · intro placement placements options hp hs
    unfold getPathForPlacement
    simp [hp, hs]

/-- Witness for C16: the third of five beads on a square. -/
theorem getGlobalMovementPath_beads_witness :
    "square" ∈ ["circle", "square", "triangle", "z", "8", "infinity", "vibrate"] ∧
    1 < 5 ∧ 2 < 5 ∧
    getGlobalMovementPath sampleHost "square" ⟨300, 200, 12⟩ 2 5 ⟨150, 100⟩ 5 "clockwise"
        (1 / 4)
      = getGlobalMovementPath sampleHost "square" ⟨300, 200, 12⟩ 0 5 ⟨150, 100⟩ 5 "clockwise"
          (1 / 4 + ((2 : Nat) : ℚ) / ((5 : Nat) : ℚ)) :=
  ⟨by decide, by decide, by decide,
    (getGlobalMovementPath_beads sampleHost "square" ⟨300, 200, 12⟩ ⟨150, 100⟩ 5 "clockwise"
      5 2 (1 / 4) (by decide) (by decide) (by decide)).1⟩

theorem getRandomGlobalCenter_bounds (box : Box) (shapeRadius : ℚ) (u v : Draw)
    (hw : 0 < box.width) (hh : 0 < box.height) (h0 : 0 ≤ shapeRadius)
    (h10 : shapeRadius ≤ 10) :
    box.padding + 0.35 * min box.width box.height * (shapeRadius / 5) / 2
      ≤ (getRandomGlobalCenter box shapeRadius u v).x ∧
    (getRandomGlobalCenter box shapeRadius u v).x
      ≤ box.padding + box.width - 0.35 * min box.width box.height * (shapeRadius / 5) / 2 ∧
    box.padding + 0.35 * min box.width box.height * (shapeRadius / 5) / 2
      ≤ (getRandomGlobalCenter box shapeRadius u v).y ∧
    (getRandomGlobalCenter box shapeRadius u v).y
      ≤ box.padding + box.height - 0.35 * min box.width box.height * (shapeRadius / 5) / 2 := by
  have hm0 : 0 < min box.width box.height := lt_min hw hh
  have hmw : min box.width box.height ≤ box.width := min_le_left _ _
  have hmh : min box.width box.height ≤ box.height := min_le_right _ _
  have hsz : min box.width box.height * 0.35 * shapeRadiusToFactor shapeRadius
      = 0.35 * min box.width box.height * (shapeRadius / 5) := by
    unfold shapeRadiusToFactor
    ring
  have hs0 : 0 ≤ 0.35 * min box.width box.height * (shapeRadius / 5) := by
    apply mul_nonneg
    · apply mul_nonneg <;> linarith
    · apply div_nonneg <;> linarith
  have hs1 : 0.35 * min box.width box.height * (shapeRadius / 5)
      ≤ min box.width box.height := by
    have : 0.35 * min box.width box.height * (shapeRadius / 5)
        = min box.width box.height * (0.35 * (shapeRadius / 5)) := by ring
    rw [this]
    have h2 : 0.35 * (shapeRadius / 5) ≤ 1 := by linarith
    nlinarith
  simp only [getRandomGlobalCenter, hsz]
  generalize 0.35 * min box.width box.height * (shapeRadius / 5) = sz at hs0 hs1 ⊢
  have hu0 := u.nonneg
  have hu1 := u.lt_one
  have hv0 := v.nonneg
  have hv1 := v.lt_one
  have ex : 0 ≤ box.padding + box.width - sz / 2 - (box.padding + sz / 2) := by linarith
  have ey : 0 ≤ box.padding + box.height - sz / 2 - (box.padding + sz / 2) := by linarith
  have a1 := mul_nonneg hu0 ex
  have a2 := mul_le_mul_of_nonneg_right hu1.le ex
  have b1 := mul_nonneg hv0 ey
  have b2 := mul_le_mul_of_nonneg_right hv1.le ey
  refine ⟨by linarith, by linarith, by linarith, by linarith⟩

theorem global_phase_nonneg (i n : Nat) :
    0 ≤ (if 1 < n then fmod ((i : ℚ) / (n : ℚ)) 1 else 0) := by
  split_ifs
  · exact (fmod_of_nonneg _ 1 (div_nonneg (Nat.cast_nonneg i) (Nat.cast_nonneg n)) one_pos).1
  · exact le_refl 0

theorem global_square_in_box (M : HostMath) (box : Box) (shapeRadius : ℚ) (u v : Draw)
    (i n : Nat) (direction : String) (t : ℚ)
    (hw : 0 < box.width) (hh : 0 < box.height) (h0 : 0 < shapeRadius)
    (h10 : shapeRadius ≤ 10) (ht : 0 ≤ t) :
    ∃ x y,
      getGlobalMovementPath M "square" box i n (getRandomGlobalCenter box shapeRadius u v)
        shapeRadius direction t = { x := .num x, y := .num y } ∧
      box.padding ≤ x ∧ x ≤ box.padding + box.width ∧
      box.padding ≤ y ∧ y ≤ box.padding + box.height := by
  have hc := getRandomGlobalCenter_bounds box shapeRadius u v hw hh h0.le h10
  generalize getRandomGlobalCenter box shapeRadius u v = c at hc ⊢
  have hsz : min box.width box.height * 0.35 * shapeRadiusToFactor shapeRadius
      = 0.35 * min box.width box.height * (shapeRadius / 5) := by
    unfold shapeRadiusToFactor
    ring
  have hs0 : 0 < 0.35 * min box.width box.height * (shapeRadius / 5) := by
    apply mul_pos
    · apply mul_pos
      · norm_num
      · exact lt_min hw hh
    · apply div_pos <;> linarith
  have he := (applyDirection_range t _ direction
    (add_nonneg ht (global_phase_nonneg i n))).1
  obtain ⟨x, y, hxy, hx, hy⟩ := square_near_centre _ c.x c.y _ hs0 he
  refine ⟨x, y, ?_, ?_⟩
  · unfold getGlobalMovementPath
    simp only [getPathByType_square, hsz]
    exact hxy
  · rw [abs_le] at hx hy
    refine ⟨by linarith [hx.1], by linarith [hx.2], by linarith [hy.1], by linarith [hy.2]⟩

/-- C17, at the failing input `shapeRadius = 0`: the centre returned by
`getRandomGlobalCenter` is a point, but the square path of the global style around it
returns `y = NaN` at every `t`, so its points do not lie within the box. -/
theorem global_square_zero_radius_nan (M : HostMath) (box : Box) (u v : Draw) (i n : Nat)
    (direction : String) (t : ℚ) :
    getGlobalMovementPath M "square" box i n (getRandomGlobalCenter box 0 u v) 0 direction t
      = { x := .num (getRandomGlobalCenter box 0 u v).x, y := .nan } := by
  unfold getGlobalMovementPath
  simp only [global_size_zero, getPathByType_square, getSquarePath_zero]

/-- C25: the shuffle of `computePlacements` only reorders.  For every solution, noise, box and
sequence of random draws, the `(char, isSolution)` pairs of the returned placements are a
rearrangement of the list that holds one `(c, true)` per character `c` of `solution` and one
`(c, false)` per element `c` of `noise`: the two are equal as multisets. -/
theorem computePlacements_pairs_perm (rand : Nat → Draw) (solution : String)
    (noise : List Char) (box : Box) :
    ((computePlacements rand solution noise box).map (fun p => (p.char, p.isSolution))).Perm
      (solution.toList.map (fun c => (c, true)) ++ noise.map (fun c => (c, false))) ∧
    (((computePlacements rand solution noise box).map
        (fun p => (p.char, p.isSolution)) : List (Char × Bool)) : Multiset (Char × Bool))
      = ((solution.toList.map (fun c => (c, true)) ++ noise.map (fun c => (c, false)) :
          List (Char × Bool)) : Multiset (Char × Bool)) := by
  have h : ((computePlacements rand solution noise box).map
      (fun p => (p.char, p.isSolution))).Perm
      (solution.toList.map (fun c => (c, true)) ++ noise.map (fun c => (c, false))) := by
    unfold computePlacements
    simp only []
    rw [placeLoop_map]
    exact shuffleLoop_perm rand _ _ _
  exact ⟨h, Multiset.coe_eq_coe.mpr h⟩

theorem getPathByType_fallback (M : HostMath) (type : String) (centerX centerY size : ℚ)
    (box : Box) (phase : ℚ) (index : Nat) (direction : String)
    (h1 : type ≠ "random") (h2 : type ≠ "matrix") (h3 : type ≠ "teleportation")
    (h4 : type ≠ "circle") (h5 : type ≠ "square") (h6 : type ≠ "triangle")
    (h7 : type ≠ "z") (h8 : type ≠ "8") (h9 : type ≠ "infinity") (h10 : type ≠ "vibrate") :
    getPathByType M type centerX centerY size box phase index direction
      = fun t => getCirclePath M (size / 2) centerX centerY
          (applyDirection t phase direction) := by
  have e1 := beq_eq_false_iff_ne.mpr h1
  have e2 := beq_eq_false_iff_ne.mpr h2
  have e3 := beq_eq_false_iff_ne.mpr h3
  have e4 := beq_eq_false_iff_ne.mpr h4
  have e5 := beq_eq_false_iff_ne.mpr h5
  have e6 := beq_eq_false_iff_ne.mpr h6
  have e7 := beq_eq_false_iff_ne.mpr h7
  have e8 := beq_eq_false_iff_ne.mpr h8
  have e9 := beq_eq_false_iff_ne.mpr h9
  have e10 := beq_eq_false_iff_ne.mpr h10
  unfold getPathByType
  simp only [e1, e2, e3, e4, e5, e6, e7, e8, e9, e10, Bool.false_eq_true, ↓reduceIte]

theorem getPathByType_circle (M : HostMath) (centerX centerY size : ℚ)
    (box : Box) (phase : ℚ) (index : Nat) (direction : String) :
    getPathByType M "circle" centerX centerY size box phase index direction
      = fun t => getCirclePath M (size / 2) centerX centerY
          (applyDirection t phase direction) := by
  have e1 : ("circle" == "random") = false := by decide
  have e2 : ("circle" == "matrix") = false := by decide
  have e3 : ("circle" == "teleportation") = false := by decide
  have e4 : ("circle" == "circle") = true := by decide
  have e6 : ("circle" == "triangle") = false := by decide
  unfold getPathByType
  simp only [e1, e2, e3, e4, e6, Bool.false_eq_true, ↓reduceIte]

/-- C24: a shape name that is not recognised is not rejected, it falls back to the circle.
For every `type` other than `random`, `matrix`, `teleportation`, `circle`, `square`,
`triangle`, `z`, `8`, `infinity` and `vibrate`, and for all other arguments,
`getPathByType(type, cx, cy, size, box, phase, index, direction)` is the same function of
`t` as `getPathByType("circle", cx, cy, size, box, phase, index, direction)`. -/
theorem getPathByType_unknown_is_circle (M : HostMath) (type : String)
    (centerX centerY size : ℚ) (box : Box) (phase : ℚ) (index : Nat) (direction : String)
    (htype : type ∉ ["random", "matrix", "teleportation", "circle", "square", "triangle",
      "z", "8", "infinity", "vibrate"]) :
    getPathByType M type centerX centerY size box phase index direction
      = getPathByType M "circle" centerX centerY size box phase index direction := by
  simp only [List.mem_cons, List.mem_singleton, List.not_mem_nil, or_false, not_or] at htype
  obtain ⟨h1, h2, h3, h4, h5, h6, h7, h8, h9, h10⟩ := htype
  rw [getPathByType_fallback M type centerX centerY size box phase index direction
    h1 h2 h3 h4 h5 h6 h7 h8 h9 h10, getPathByType_circle]

/-- Witness for C24: the name `hexagon`. -/
theorem getPathByType_unknown_is_circle_witness :
    "hexagon" ∉ ["random", "matrix", "teleportation", "circle", "square", "triangle",
      "z", "8", "infinity", "vibrate"] ∧
    getPathByType sampleHost "hexagon" 50 60 30 ⟨300, 200, 12⟩ 0 0 "clockwise"
      = getPathByType sampleHost "circle" 50 60 30 ⟨300, 200, 12⟩ 0 0 "clockwise" :=
  ⟨by decide, getPathByType_unknown_is_circle sampleHost "hexagon" 50 60 30 ⟨300, 200, 12⟩
    0 0 "clockwise" (by decide)⟩

theorem getPathByType_triangle (M : HostMath) (centerX centerY size : ℚ) (box : Box)
    (phase : ℚ) (index : Nat) (direction : String) (t : ℚ) :
    getPathByType M "triangle" centerX centerY size box phase index direction t
      = getTrianglePath M size centerX centerY (applyDirection t phase
          (if direction == "clockwise" then "counter" else "clockwise")) := by
  have h1 : ("triangle" == "random") = false := by decide
  have h2 : ("triangle" == "matrix") = false := by decide
  have h3 : ("triangle" == "teleportation") = false := by decide
  have h4 : ("triangle" == "circle") = false := by decide
  have h5 : ("triangle" == "square") = false := by decide
  have h6 : ("triangle" == "triangle") = true := by decide
  unfold getPathByType
  simp only [h1, h2, h3, h4, h5, h6, Bool.false_eq_true, ↓reduceIte]

theorem getPathByType_z (M : HostMath) (centerX centerY size : ℚ) (box : Box)
    (phase : ℚ) (index : Nat) (direction : String) (t : ℚ) :
    getPathByType M "z" centerX centerY size box phase index direction t
      = getZPath size centerX centerY (applyDirection t phase direction) := by
  have h1 : ("z" == "random") = false := by decide
  have h2 : ("z" == "matrix") = false := by decide
  have h3 : ("z" == "teleportation") = false := by decide
  have h4 : ("z" == "circle") = false := by decide
  have h5 : ("z" == "square") = false := by decide
  have h6 : ("z" == "triangle") = false := by decide
  have h7 : ("z" == "z") = true := by decide
  unfold getPathByType
  simp only [h1, h2, h3, h4, h5, h6, h7, Bool.false_eq_true, ↓reduceIte]

theorem getPathByType_figure8 (M : HostMath) (centerX centerY size : ℚ) (box : Box)
    (phase : ℚ) (index : Nat) (direction : String) (t : ℚ) :
    getPathByType M "8" centerX centerY size box phase index direction t
      = getFigure8Path M size centerX centerY (applyDirection t phase direction) := by
  have h1 : ("8" == "random") = false := by decide
  have h2 : ("8" == "matrix") = false := by decide
  have h3 : ("8" == "teleportation") = false := by decide
  have h4 : ("8" == "circle") = false := by decide
  have h5 : ("8" == "square") = false := by decide
  have h6 : ("8" == "triangle") = false := by decide
  have h7 : ("8" == "z") = false := by decide
  have h8 : ("8" == "8") = true := by decide
  unfold getPathByType
  simp only [h1, h2, h3, h4, h5, h6, h7, h8, Bool.false_eq_true, ↓reduceIte]

theorem getPathByType_infinity (M : HostMath) (centerX centerY size : ℚ) (box : Box)
    (phase : ℚ) (index : Nat) (direction : String) (t : ℚ) :
    getPathByType M "infinity" centerX centerY size box phase index direction t
      = getInfinityPath M size centerX centerY (applyDirection t phase direction) := by
  have h1 : ("infinity" == "random") = false := by decide
  have h2 : ("infinity" == "matrix") = false := by decide
  have h3 : ("infinity" == "teleportation") = false := by decide
  have h4 : ("infinity" == "circle") = false := by decide
  have h5 : ("infinity" == "square") = false := by decide
  have h6 : ("infinity" == "triangle") = false := by decide
  have h7 : ("infinity" == "z") = false := by decide
  have h8 : ("infinity" == "8") = false := by decide
  have h9 : ("infinity" == "infinity") = true := by decide
  unfold getPathByType
  simp only [h1, h2, h3, h4, h5, h6, h7, h8, h9, Bool.false_eq_true, ↓reduceIte]

theorem getPathByType_vibrate (M : HostMath) (centerX centerY size : ℚ) (box : Box)
    (phase : ℚ) (index : Nat) (direction : String) (t : ℚ) :
    getPathByType M "vibrate" centerX centerY size box phase index direction t
      = getVibratePath M size centerX centerY (applyDirection t phase direction) := by
  have h1 : ("vibrate" == "random") = false := by decide
  have h2 : ("vibrate" == "matrix") = false := by decide
  have h3 : ("vibrate" == "teleportation") = false := by decide
  have h4 : ("vibrate" == "circle") = false := by decide
  have h5 : ("vibrate" == "square") = false := by decide
  have h6 : ("vibrate" == "triangle") = false := by decide
  have h7 : ("vibrate" == "z") = false := by decide
  have h8 : ("vibrate" == "8") = false := by decide
  have h9 : ("vibrate" == "infinity") = false := by decide
  have h10 : ("vibrate" == "vibrate") = true := by decide
  unfold getPathByType
  simp only [h1, h2, h3, h4, h5, h6, h7, h8, h9, h10, Bool.false_eq_true, ↓reduceIte]

theorem applyDirection_clockwise (t phase : ℚ) (h : 0 ≤ t + phase) :
    applyDirection t phase "clockwise" = Int.fract (t + phase) := by
  rw [applyDirection_of_nonneg _ _ _ h, if_neg (by decide)]

theorem applyDirection_counter (t phase : ℚ) (h : 0 ≤ t + phase) :
    applyDirection t phase "counter" = 1 - Int.fract (t + phase) := by
  rw [applyDirection_of_nonneg _ _ _ h, if_pos rfl]

/-- C23: the direction label is inverted for the triangle and for no other closed shape.
For every size, centre, phase and `t` with `t + phase ≥ 0`, writing `f` for
`(t + phase) mod 1` (the fractional part): `getPathByType("triangle", .., "clockwise")(t)`
is the raw walk `getTrianglePath(size, cx, cy)` at `1 − f` and with `"counter"` it is that
walk at `f`; for the circle, the square, `z`, `8`, `infinity` and `vibrate`, `"clockwise"`
evaluates the raw shape at `f` and `"counter"` at `1 − f`. -/
theorem getPathByType_triangle_direction_inverted (M : HostMath) (centerX centerY size : ℚ)
    (box : Box) (phase : ℚ) (index : Nat) (t : ℚ) (h : 0 ≤ t + phase) :
    (getPathByType M "triangle" centerX centerY size box phase index "clockwise" t
        = getTrianglePath M size centerX centerY (1 - Int.fract (t + phase)) ∧
      getPathByType M "triangle" centerX centerY size box phase index "counter" t
        = getTrianglePath M size centerX centerY (Int.fract (t + phase))) ∧
    (getPathByType M "circle" centerX centerY size box phase index "clockwise" t
        = getCirclePath M (size / 2) centerX centerY (Int.fract (t + phase)) ∧
      getPathByType M "circle" centerX centerY size box phase index "counter" t
        = getCirclePath M (size / 2) centerX centerY (1 - Int.fract (t + phase))) ∧
    (getPathByType M "square" centerX centerY size box phase index "clockwise" t
        = getSquarePath size centerX centerY (Int.fract (t + phase)) ∧
      getPathByType M "square" centerX centerY size box phase index "counter" t
        = getSquarePath size centerX centerY (1 - Int.fract (t + phase))) ∧
    (getPathByType M "z" centerX centerY size box phase index "clockwise" t
        = getZPath size centerX centerY (Int.fract (t + phase)) ∧
      getPathByType M "z" centerX centerY size box phase index "counter" t
        = getZPath size centerX centerY (1 - Int.fract (t + phase))) ∧
    (getPathByType M "8" centerX centerY size box phase index "clockwise" t
        = getFigure8Path M size centerX centerY (Int.fract (t + phase)) ∧
      getPathByType M "8" centerX centerY size box phase index "counter" t
        = getFigure8Path M size centerX centerY (1 - Int.fract (t + phase))) ∧
    (getPathByType M "infinity" centerX centerY size box phase index "clockwise" t
        = getInfinityPath M size centerX centerY (Int.fract (t + phase)) ∧
      getPathByType M "infinity" centerX centerY size box phase index "counter" t
        = getInfinityPath M size centerX centerY (1 - Int.fract (t + phase))) ∧
    (getPathByType M "vibrate" centerX centerY size box phase index "clockwise" t
        = getVibratePath M size centerX centerY (Int.fract (t + phase)) ∧
      getPathByType M "vibrate" centerX centerY size box phase index "counter" t
        = getVibratePath M size centerX centerY (1 - Int.fract (t + phase))) := by
  have hcw := applyDirection_clockwise t phase h
  have hcc := applyDirection_counter t phase h
  have d1 : (("clockwise" : String) == "clockwise") = true := by decide
  have d2 : (("counter" : String) == "clockwise") = false := by decide
  refine ⟨⟨?_, ?_⟩, ⟨?_, ?_⟩, ⟨?_, ?_⟩, ⟨?_, ?_⟩, ⟨?_, ?_⟩, ⟨?_, ?_⟩, ⟨?_, ?_⟩⟩
  · rw [getPathByType_triangle]
    simp only [d1, ↓reduceIte, hcc]
  · rw [getPathByType_triangle]
    simp only [d2, Bool.false_eq_true, ↓reduceIte, hcw]
  · rw [getPathByType_circle]
    simp only [hcw]
  · rw [getPathByType_circle]
    simp only [hcc]
  · rw [getPathByType_square, hcw]
  · rw [getPathByType_square, hcc]
  · rw [getPathByType_z, hcw]
  · rw [getPathByType_z, hcc]
  · rw [getPathByType_figure8, hcw]
  · rw [getPathByType_figure8, hcc]
  · rw [getPathByType_infinity, hcw]
  · rw [getPathByType_infinity, hcc]
  · rw [getPathByType_vibrate, hcw]
  · rw [getPathByType_vibrate, hcc]

/-- Witness for C23: `t = 1/4` with phase `1/2`. -/
theorem getPathByType_triangle_direction_inverted_witness :
    (0 : ℚ) ≤ 1 / 4 + 1 / 2 ∧
    getPathByType sampleHost "triangle" 50 60 30 ⟨300, 200, 12⟩ (1 / 2) 0 "clockwise" (1 / 4)
      = getTrianglePath sampleHost 30 50 60 (1 - Int.fract ((1 / 4 : ℚ) + 1 / 2)) :=
  ⟨by norm_num, (getPathByType_triangle_direction_inverted sampleHost 50 60 30
    ⟨300, 200, 12⟩ (1 / 2) 0 (1 / 4) (by norm_num)).1.1⟩

theorem invalidLoop_all_false_iff (u : List Char) (counts : Char → Nat) :
    (∀ b ∈ invalidLoop u counts, b = false) ↔
      ∀ (i : Nat) (c : Char), u[i]? = some c → (u.take i).count c < counts c := by
  constructor
  · intro h i c hc
    have he := invalidLoop_getElem? u counts i c hc
    have hm := h _ (List.mem_iff_getElem?.mpr ⟨i, he⟩)
    simpa using hm
  · intro h b hb
    obtain ⟨i, hi⟩ := List.mem_iff_getElem?.mp hb
    have hlt : i < u.length := by
      by_contra hge
      have hn : (invalidLoop u counts)[i]? = none :=
        List.getElem?_eq_none (by rw [invalidLoop_length]; omega)
      rw [hn] at hi
      exact Option.noConfusion hi
    have hc : u[i]? = some u[i] := List.getElem?_eq_getElem hlt
    rw [invalidLoop_getElem? u counts i _ hc] at hi
    have := h i _ hc
    simp only [Option.some.injEq] at hi
    rw [← hi]
    simp [this]

theorem prefix_counts_iff (u s : List Char) :
    (∀ (i : Nat) (c : Char), u[i]? = some c → (u.take i).count c < s.count c) ↔
      ∀ c, u.count c ≤ s.count c := by
  constructor
  · intro h c
    have key : ∀ k, (u.take k).count c ≤ s.count c := by
      intro k
      induction k with
      | zero => simp
      | succ k ih =>
        rw [List.take_succ, List.count_append]
        cases hk : u[k]? with
        | none => simpa using ih
        | some d =>
          by_cases hd : d = c
          · subst hd
            have := h k d hk
            simp
            omega
          · have hz : List.count c [d] = 0 :=
              List.count_eq_zero.mpr (fun hm => hd (List.mem_singleton.mp hm).symm)
            rw [Option.toList_some, hz, add_zero]
            exact ih
    have := key u.length
    rwa [List.take_length] at this
  · intro h i c hc
    have h1 : (u.take (i + 1)).count c = (u.take i).count c + 1 := by
      rw [List.take_succ, List.count_append, hc]
      simp
    have h2 : (u.take (i + 1)).count c ≤ u.count c := (List.take_sublist _ _).count_le c
    have := h c
    omega

theorem counts_le_iff_perm (u s : List Char) (hlen : u.length = s.length) :
    (∀ c, u.count c ≤ s.count c) ↔ u.Perm s := by
  constructor
  · intro h
    exact (List.subperm_ext_iff.mpr (fun c _ => h c)).perm_of_length_le (Nat.le_of_eq hlen.symm)
  · intro h c
    exact Nat.le_of_eq (h.count_eq c)

theorem getInvalidIndices_all_false_iff (u s : String) (hlen : u.length = s.length) :
    (∀ b ∈ getInvalidIndices u s, b = false) ↔ u.toList.Perm s.toList := by
  unfold getInvalidIndices
  rw [invalidLoop_all_false_iff]
  simp only [countChars_eq_count]
  rw [prefix_counts_iff]
  exact counts_le_iff_perm _ _ hlen

/-- C26: the verdict and the per-slot diff agree.  For every solution `s` and every input `u`
that is already normalized (`normalizeInput(u) = u`) and as long as `s`,
`validateSolution(u, s)` is true exactly when `getInvalidIndices(u, s)` has no `true` entry;
hence, when such an attempt is rejected, `showValidationResult` (on a page that has the
status element) marks at least one of the boxes invalid. -/
theorem verdict_agrees_with_diff (upper : Char → List Char) (u s : String)
    (hnorm : normalizeInput upper u = u) (hlen : u.length = s.length) :
    (validateSolution upper u s = true ↔ ∀ b ∈ getInvalidIndices u s, b = false) ∧
    (validateSolution upper u s = false →
      ∃ marks, showValidationResult (validateSolution upper u s) u.length true u s
        = some marks ∧ true ∈ marks) := by
  have hiff : validateSolution upper u s = true ↔ ∀ b ∈ getInvalidIndices u s, b = false := by
    rw [getInvalidIndices_all_false_iff u s hlen]
    have h := jsSort_eq_iff_perm (normalizeInput upper u).toList s.toList
    rw [hnorm] at h
    simp only [validateSolution, decide_eq_true_eq, string_mk_eq_iff, hnorm]
    exact h
  refine ⟨hiff, ?_⟩
  intro hv
  have hnot : ¬ ∀ b ∈ getInvalidIndices u s, b = false := by
    intro hall
    rw [hiff.mpr hall] at hv
    exact Bool.noConfusion hv
  push_neg at hnot
  obtain ⟨b, hb, hbt⟩ := hnot
  have hb1 : b = true := by
    cases b with
    | true => rfl
    | false => exact absurd rfl hbt
  subst hb1
  obtain ⟨i, hi⟩ := List.mem_iff_getElem?.mp hb
  have hlt : i < u.length := by
    by_contra hge
    have hn : (getInvalidIndices u s)[i]? = none :=
      List.getElem?_eq_none (by
        unfold getInvalidIndices
        rw [invalidLoop_length]
        exact Nat.le_of_not_lt hge)
    rw [hn] at hi
    exact Option.noConfusion hi
  refine ⟨(List.range u.length).map
    (fun i => decide ((getInvalidIndices u s)[i]? = some true)), ?_, ?_⟩
  · simp [showValidationResult, hv]
  · rw [List.mem_map]
    exact ⟨i, List.mem_range.mpr hlt, by simp [hi]⟩

/-- Witness for C26: the attempt `ABB` against the solution `AAB`, over the ASCII table. -/
theorem verdict_agrees_with_diff_witness :
    normalizeInput asciiUpper "ABB" = "ABB" ∧ "ABB".length = "AAB".length ∧
    (validateSolution asciiUpper "ABB" "AAB" = true ↔
      ∀ b ∈ getInvalidIndices "ABB" "AAB", b = false) :=
  ⟨by decide, by decide, (verdict_agrees_with_diff asciiUpper "ABB" "AAB" (by decide)
    (by decide)).1⟩

theorem getPathByType_teleportation (M : HostMath) (centerX centerY size : ℚ) (box : Box)
    (phase : ℚ) (index : Nat) (direction : String) (t : ℚ) :
    getPathByType M "teleportation" centerX centerY size box phase index direction t
      = teleportationPoint M box phase index
          (fmod (⌊applyDirection t phase direction * 8⌋ : ℚ) 8) := by
  have h1 : ("teleportation" == "random") = false := by decide
  have h2 : ("teleportation" == "matrix") = false := by decide
  have h3 : ("teleportation" == "teleportation") = true := by decide
  unfold getPathByType teleportationPoint
  simp only [h1, h2, h3, Bool.false_eq_true, ↓reduceIte]

theorem seededRandom_range (M : HostMath) (seed : ℚ) :
    0 ≤ seededRandom M seed ∧ seededRandom M seed < 1 := by
  unfold seededRandom
  simp only []
  rw [Int.self_sub_floor]
  exact ⟨Int.fract_nonneg _, Int.fract_lt_one _⟩

theorem seededRandom_eq (M : HostMath) (seed : ℚ) (n : ℤ) (h1 : (n : ℚ) ≤ M.sin seed * 10000)
    (h2 : M.sin seed * 10000 < n + 1) :
    seededRandom M seed = M.sin seed * 10000 - n := by
  unfold seededRandom
  simp only []
  rw [Int.floor_eq_iff.mpr ⟨h1, h2⟩]

theorem teleportationPoint_range (M : HostMath) (box : Box) (phase : ℚ) (index : Nat)
    (step : ℚ) (hw : CHAR_SIZE ≤ box.width) (hh : CHAR_SIZE ≤ box.height) :
    ∃ x y, teleportationPoint M box phase index step = { x := .num x, y := .num y } ∧
      box.padding + CHAR_SIZE / 2 ≤ x ∧ x ≤ box.padding + box.width - CHAR_SIZE / 2 ∧
      box.padding + CHAR_SIZE / 2 ≤ y ∧ y ≤ box.padding + box.height - CHAR_SIZE / 2 := by
  refine ⟨_, _, rfl, ?_⟩
  have r1 := seededRandom_range M ((index : ℚ) * 7.3 + step * 11.7 + phase * 100)
  have r2 := seededRandom_range M ((index : ℚ) * 13.1 + step * 17.9 + phase * 100 + 1)
  generalize seededRandom M ((index : ℚ) * 7.3 + step * 11.7 + phase * 100) = a at r1
  generalize seededRandom M ((index : ℚ) * 13.1 + step * 17.9 + phase * 100 + 1) = b at r2
  unfold CHAR_SIZE at hw hh ⊢
  have ex : 0 ≤ box.padding + box.width - 20 / 2 - (box.padding + 20 / 2) := by linarith
  have ey : 0 ≤ box.padding + box.height - 20 / 2 - (box.padding + 20 / 2) := by linarith
  have a1 := mul_nonneg r1.1 ex
  have a2 := mul_le_mul_of_nonneg_right r1.2.le ex
  have b1 := mul_nonneg r2.1 ey
  have b2 := mul_le_mul_of_nonneg_right r2.2.le ey
  refine ⟨by linarith, by linarith, by linarith, by linarith⟩

theorem teleportation_beyond_placement_range (M : HostMath) (h0 : M.sin 0 = 0)
    (h1 : 0.84147 ≤ M.sin 1) (h2 : M.sin 1 ≤ 0.84148) :
    ∃ y, getPathByType M "teleportation" 22 22 0 ⟨50, 50, 12⟩ 0 0 "clockwise" 0
        = { x := .num 22, y := .num y } ∧
      (⟨50, 50, 12⟩ : Box).padding + CHAR_SIZE / 2
        + max 0 ((⟨50, 50, 12⟩ : Box).height - CHAR_SIZE - CHAR_SIZE / 2) < y := by
  have he : applyDirection 0 0 "clockwise" = 0 := by
    rw [applyDirection_clockwise 0 0 (by norm_num)]
    norm_num
  have hstep : fmod (⌊(0 : ℚ) * 8⌋ : ℚ) 8 = 0 := by
    norm_num [fmod, trunc]
  rw [getPathByType_teleportation, he, hstep]
  have s1 : seededRandom M (((0 : Nat) : ℚ) * 7.3 + 0 * 11.7 + 0 * 100) = 0 := by
    have : (((0 : Nat) : ℚ) * 7.3 + 0 * 11.7 + 0 * 100) = 0 := by norm_num
    rw [this, seededRandom_eq M 0 0 (by rw [h0]; norm_num) (by rw [h0]; norm_num), h0]
    norm_num
  have s2 : seededRandom M (((0 : Nat) : ℚ) * 13.1 + 0 * 17.9 + 0 * 100 + 1)
      = M.sin 1 * 10000 - 8414 := by
    have : (((0 : Nat) : ℚ) * 13.1 + 0 * 17.9 + 0 * 100 + 1) = 1 := by norm_num
    rw [this, seededRandom_eq M 1 8414 (by push_cast; linarith) (by push_cast; linarith)]
    norm_num
  refine ⟨12 + 20 / 2 + (M.sin 1 * 10000 - 8414) * (12 + 50 - 20 / 2 - (12 + 20 / 2)), ?_, ?_⟩
  · unfold teleportationPoint
    simp only [s1, s2]
    congr 2
    norm_num [CHAR_SIZE]
  · norm_num [CHAR_SIZE]
    linarith

/-- C21, as stated, fails: in the box of 50 by 50 with padding 12, the teleportation path
of index 0 and phase 0 is at `t = 0` at `y = 43.29…` (`seed2 = 1`, and `sin 1 = 0.84147…`
gives the pseudo-random factor `0.7098…` of the range of 30), beyond `42`, the largest
ordinate that `randomPositionInBox` can return in that box. -/
theorem teleportation_range_counterexample :
    getPathByType tabulatedHost "teleportation" 22 22 0 ⟨50, 50, 12⟩ 0 0 "clockwise" 0
      = { x := .num 22, y := .num 43.29544 } ∧
    (⟨50, 50, 12⟩ : Box).padding + CHAR_SIZE / 2
      + max 0 ((⟨50, 50, 12⟩ : Box).height - CHAR_SIZE - CHAR_SIZE / 2) = 42 ∧
    (42 : ℚ) < 43.29544 := by
  refine ⟨?_, by norm_num [CHAR_SIZE], by norm_num⟩
  have hs0 : tabulatedHost.sin 0 = 0 := by norm_num [tabulatedHost]
  have hs1 : tabulatedHost.sin 1 = 0.8414709848 := by norm_num [tabulatedHost]
  have he : applyDirection 0 0 "clockwise" = 0 := by
    rw [applyDirection_clockwise 0 0 (by norm_num)]
    norm_num
  have hstep : fmod (⌊(0 : ℚ) * 8⌋ : ℚ) 8 = 0 := by
    norm_num [fmod, trunc]
  rw [getPathByType_teleportation, he, hstep]
  have s1 : seededRandom tabulatedHost (((0 : Nat) : ℚ) * 7.3 + 0 * 11.7 + 0 * 100) = 0 := by
    have : (((0 : Nat) : ℚ) * 7.3 + 0 * 11.7 + 0 * 100) = 0 := by norm_num
    rw [this, seededRandom_eq tabulatedHost 0 0 (by rw [hs0]; norm_num)
      (by rw [hs0]; norm_num), hs0]
    norm_num
  have s2 : seededRandom tabulatedHost (((0 : Nat) : ℚ) * 13.1 + 0 * 17.9 + 0 * 100 + 1)
      = 0.709848 := by
    have : (((0 : Nat) : ℚ) * 13.1 + 0 * 17.9 + 0 * 100 + 1) = 1 := by norm_num
    rw [this, seededRandom_eq tabulatedHost 1 8414 (by rw [hs1]; norm_num)
      (by rw [hs1]; norm_num), hs1]
    norm_num
  unfold teleportationPoint
  simp only [s1, s2]
  congr 2 <;> norm_num [CHAR_SIZE]

/-- C21, amended: the teleportation path keeps the margin `CHAR_SIZE / 2` on every side of
the box, not the range of `randomPositionInBox`.  For every box with width and height at
least `2 × CHAR_SIZE`, every index, phase, direction and `t`, the point `(x, y)` returned by
the `"teleportation"` path is a pair of numbers with
`padding + margin ≤ x ≤ padding + width − margin` and
`padding + margin ≤ y ≤ padding + height − margin`, `margin = CHAR_SIZE / 2`; so it can
exceed the largest coordinate of a placement, `padding + margin + max(0, width − CHAR_SIZE −
margin)`, by up to `CHAR_SIZE / 2`. -/
theorem teleportation_keeps_margin (M : HostMath) (centerX centerY size : ℚ) (box : Box)
    (phase : ℚ) (index : Nat) (direction : String) (t : ℚ)
    (hw : 2 * CHAR_SIZE ≤ box.width) (hh : 2 * CHAR_SIZE ≤ box.height) :
    ∃ x y,
      getPathByType M "teleportation" centerX centerY size box phase index direction t
        = { x := .num x, y := .num y } ∧
      box.padding + CHAR_SIZE / 2 ≤ x ∧ x ≤ box.padding + box.width - CHAR_SIZE / 2 ∧
      box.padding + CHAR_SIZE / 2 ≤ y ∧ y ≤ box.padding + box.height - CHAR_SIZE / 2 ∧
      x ≤ box.padding + CHAR_SIZE / 2 + max 0 (box.width - CHAR_SIZE - CHAR_SIZE / 2)
        + CHAR_SIZE / 2 ∧
      y ≤ box.padding + CHAR_SIZE / 2 + max 0 (box.height - CHAR_SIZE - CHAR_SIZE / 2)
        + CHAR_SIZE / 2 := by
  have hw2 : CHAR_SIZE ≤ box.width := by unfold CHAR_SIZE at hw ⊢; linarith
  have hh2 : CHAR_SIZE ≤ box.height := by unfold CHAR_SIZE at hh ⊢; linarith
  obtain ⟨x, y, hxy, hx1, hx2, hy1, hy2⟩ :=
    teleportationPoint_range M box phase index
      (fmod (⌊applyDirection t phase direction * 8⌋ : ℚ) 8) hw2 hh2
  refine ⟨x, y, ?_, hx1, hx2, hy1, hy2, ?_, ?_⟩
  · rw [getPathByType_teleportation]
    exact hxy
  · have := le_max_right 0 (box.width - CHAR_SIZE - CHAR_SIZE / 2)
    linarith
  · have := le_max_right 0 (box.height - CHAR_SIZE - CHAR_SIZE / 2)
    linarith

/-- Witness for C21 amended: the box of 300 by 200 with padding 12. -/
theorem teleportation_keeps_margin_witness :
    2 * CHAR_SIZE ≤ (⟨300, 200, 12⟩ : Box).width ∧
    2 * CHAR_SIZE ≤ (⟨300, 200, 12⟩ : Box).height ∧
    ∃ x y,
      getPathByType sampleHost "teleportation" 50 60 30 ⟨300, 200, 12⟩ 0 0 "clockwise" 0
        = { x := .num x, y := .num y } ∧
      (⟨300, 200, 12⟩ : Box).padding + CHAR_SIZE / 2 ≤ x ∧
      x ≤ (⟨300, 200, 12⟩ : Box).padding + (⟨300, 200, 12⟩ : Box).width - CHAR_SIZE / 2 :=
  ⟨by norm_num [CHAR_SIZE], by norm_num [CHAR_SIZE],
    (teleportation_keeps_margin sampleHost 50 60 30 ⟨300, 200, 12⟩ 0 0 "clockwise" 0
      (by norm_num [CHAR_SIZE]) (by norm_num [CHAR_SIZE])).imp
      (fun _ hx => hx.imp (fun _ hy => ⟨hy.1, hy.2.1, hy.2.2.1⟩))⟩

theorem fmod_small (a b : ℚ) (hb : 0 < b) (h1 : -b < a) (h2 : a < b) : fmod a b = a := by
  have hq1 : -1 < a / b := by
    rw [lt_div_iff₀ hb]
    linarith
  have hq2 : a / b < 1 := by
    rw [div_lt_iff₀ hb]
    linarith
  unfold fmod trunc
  split_ifs with h
  · rw [Int.floor_eq_zero_iff.mpr ⟨h, hq2⟩]
    simp
  · rw [Int.ceil_eq_zero_iff.mpr ⟨hq1, le_of_lt (not_le.mp h)⟩]
    simp

theorem fmod_int_of_nonneg (n : ℤ) (hn : 0 ≤ n) :
    fmod (n : ℚ) 8 = ((n % 8 : ℤ) : ℚ) := by
  unfold fmod
  rw [trunc_of_nonneg _ (div_nonneg (by exact_mod_cast hn) (by norm_num))]
  have h := Rat.floor_intCast_div_natCast n 8
  simp only [Nat.cast_ofNat] at h
  rw [h]
  have hm := Int.emod_add_ediv n 8
  have hm2 : ((n % 8 : ℤ) : ℚ) + 8 * ((n / 8 : ℤ) : ℚ) = (n : ℚ) := by exact_mod_cast hm
  linarith

theorem teleportation_step_nonneg (t phase : ℚ) (direction : String) (h : 0 ≤ t + phase) :
    0 ≤ ⌊applyDirection t phase direction * 8⌋ ∧ ⌊applyDirection t phase direction * 8⌋ ≤ 8 := by
  have hr := applyDirection_range t phase direction h
  constructor
  · exact Int.floor_nonneg.mpr (mul_nonneg hr.1 (by norm_num))
  · have h8 : applyDirection t phase direction * 8 ≤ ((8 : ℤ) : ℚ) := by
      push_cast
      linarith [hr.2]
    exact Int.cast_le.mp (le_trans (Int.floor_le _) h8)

/-- The teleportation path reads `t` through `step` only: two times with the same
`step = Math.floor(effectiveT * 8) % 8` get the same point; for times with `t + phase ≥ 0`
it is enough that the floors are congruent modulo 8, and the path stays among eight
points. -/
theorem teleportation_constant_on_steps (M : HostMath) (centerX centerY size : ℚ)
    (box : Box) (phase : ℚ) (index : Nat) (direction : String) :
    (∀ t1 t2 : ℚ,
      fmod (⌊applyDirection t1 phase direction * 8⌋ : ℚ) 8
        = fmod (⌊applyDirection t2 phase direction * 8⌋ : ℚ) 8 →
      getPathByType M "teleportation" centerX centerY size box phase index direction t1
        = getPathByType M "teleportation" centerX centerY size box phase index direction t2) ∧
    (∀ t1 t2 : ℚ, 0 ≤ t1 + phase → 0 ≤ t2 + phase →
      ⌊applyDirection t1 phase direction * 8⌋ % 8
        = ⌊applyDirection t2 phase direction * 8⌋ % 8 →
      getPathByType M "teleportation" centerX centerY size box phase index direction t1
        = getPathByType M "teleportation" centerX centerY size box phase index direction t2) ∧
    (∃ positions : List JSPoint, positions.length = 8 ∧
      ∀ t : ℚ, 0 ≤ t + phase →
        getPathByType M "teleportation" centerX centerY size box phase index direction t
          ∈ positions) := by
  refine ⟨?_, ?_, ?_⟩
  · intro t1 t2 h
    rw [getPathByType_teleportation, getPathByType_teleportation, h]
  · intro t1 t2 h1 h2 h
    rw [getPathByType_teleportation, getPathByType_teleportation,
      fmod_int_of_nonneg _ (teleportation_step_nonneg t1 phase direction h1).1,
      fmod_int_of_nonneg _ (teleportation_step_nonneg t2 phase direction h2).1, h]
  · refine ⟨(List.range 8).map
      (fun k => teleportationPoint M box phase index ((k : Nat) : ℚ)), by simp, ?_⟩
    intro t ht
    rw [getPathByType_teleportation,
      fmod_int_of_nonneg _ (teleportation_step_nonneg t phase direction ht).1, List.mem_map]
    have hm0 := Int.emod_nonneg ⌊applyDirection t phase direction * 8⌋
      (by norm_num : (8 : ℤ) ≠ 0)
    have hm8 := Int.emod_lt_of_pos ⌊applyDirection t phase direction * 8⌋
      (by norm_num : (0 : ℤ) < 8)
    refine ⟨(⌊applyDirection t phase direction * 8⌋ % 8).toNat, ?_, ?_⟩
    · rw [List.mem_range]
      omega
    · congr 1
      have : (((⌊applyDirection t phase direction * 8⌋ % 8).toNat : ℤ) : ℚ)
          = ((⌊applyDirection t phase direction * 8⌋ % 8 : ℤ) : ℚ) := by
        rw [Int.toNat_of_nonneg hm0]
      exact_mod_cast this

theorem applyDirection_clockwise_small (t phase : ℚ) (h1 : -1 < t + phase)
    (h2 : t + phase < 1) : applyDirection t phase "clockwise" = t + phase := by
  unfold applyDirection
  rw [fmod_small _ 1 one_pos h1 h2]
  simp only []
  rw [if_neg (by decide)]

theorem teleportation_x_of_step (M : HostMath) (centerX centerY size : ℚ) (box : Box)
    (phase : ℚ) (index : Nat) (direction : String) (t : ℚ) (k n : ℤ)
    (hk1 : -8 < k) (hk2 : k < 8)
    (he1 : (k : ℚ) ≤ applyDirection t phase direction * 8)
    (he2 : applyDirection t phase direction * 8 < k + 1)
    (hn1 : (n : ℚ) ≤ M.sin ((index : ℚ) * 7.3 + (k : ℚ) * 11.7 + phase * 100) * 10000)
    (hn2 : M.sin ((index : ℚ) * 7.3 + (k : ℚ) * 11.7 + phase * 100) * 10000 < n + 1) :
    (getPathByType M "teleportation" centerX centerY size box phase index direction t).x
      = .num (box.padding + CHAR_SIZE / 2
          + (M.sin ((index : ℚ) * 7.3 + (k : ℚ) * 11.7 + phase * 100) * 10000 - n)
            * (box.padding + box.width - CHAR_SIZE / 2 - (box.padding + CHAR_SIZE / 2))) := by
  have hk1q : (-8 : ℚ) < k := by exact_mod_cast hk1
  have hk2q : (k : ℚ) < 8 := by exact_mod_cast hk2
  rw [getPathByType_teleportation, Int.floor_eq_iff.mpr ⟨he1, he2⟩,
    fmod_small _ 8 (by norm_num) hk1q hk2q]
  unfold teleportationPoint
  simp only [seededRandom_eq M _ n hn1 hn2]

/-- Outside the phases that the callers pass (they lie in `[0, 1)`): with the phase `−1/2`
the times `7/16`, `9/16`, .., `23/16` are in nine different jumps (`step` runs over
`−1, 0, .., 7`, since `%` keeps the sign of a negative `effectiveT`), and the path of
index 0 in the box of 300 by 200 has nine different abscissas there. -/
theorem teleportation_negative_phase_positions :
    (∀ t ∈ [(7 : ℚ) / 16, 9 / 16, 11 / 16, 13 / 16, 15 / 16, 17 / 16, 19 / 16, 21 / 16,
      23 / 16], 0 ≤ t) ∧
    [(7 : ℚ) / 16, 9 / 16, 11 / 16, 13 / 16, 15 / 16, 17 / 16, 19 / 16, 21 / 16,
        23 / 16].map (fun t => (getPathByType tabulatedHost "teleportation" 22 22 0
          ⟨300, 200, 12⟩ (-1 / 2) 0 "clockwise" t).x)
      = [.num 25.54872, .num 231.59036, .num 91.22132, .num 176.63308, .num 74.2214,
          .num 229.60152, .num 265.91528, .num 79.44984, .num 269.73392] ∧
    [JSNumber.num 25.54872, .num 231.59036, .num 91.22132, .num 176.63308, .num 74.2214,
      .num 229.60152, .num 265.91528, .num 79.44984, .num 269.73392].Nodup := by
  have e : ∀ t : ℚ, -1 < t + -1 / 2 → t + -1 / 2 < 1 →
      applyDirection t (-1 / 2) "clockwise" = t + -1 / 2 :=
    fun t h1 h2 => applyDirection_clockwise_small t (-1 / 2) h1 h2
  have p0 := teleportation_x_of_step tabulatedHost 22 22 0 ⟨300, 200, 12⟩ (-1 / 2) 0
    "clockwise" (7 / 16) (-1) 9052 (by norm_num) (by norm_num)
    (by rw [e _ (by norm_num) (by norm_num)]; norm_num)
    (by rw [e _ (by norm_num) (by norm_num)]; norm_num)
    (by norm_num [tabulatedHost]) (by norm_num [tabulatedHost])
  have p1 := teleportation_x_of_step tabulatedHost 22 22 0 ⟨300, 200, 12⟩ (-1 / 2) 0
    "clockwise" (9 / 16) 0 2623 (by norm_num) (by norm_num)
    (by rw [e _ (by norm_num) (by norm_num)]; norm_num)
    (by rw [e _ (by norm_num) (by norm_num)]; norm_num)
    (by norm_num [tabulatedHost]) (by norm_num [tabulatedHost])
  have p2 := teleportation_x_of_step tabulatedHost 22 22 0 ⟨300, 200, 12⟩ (-1 / 2) 0
    "clockwise" (11 / 16) 1 (-5654) (by norm_num) (by norm_num)
    (by rw [e _ (by norm_num) (by norm_num)]; norm_num)
    (by rw [e _ (by norm_num) (by norm_num)]; norm_num)
    (by norm_num [tabulatedHost]) (by norm_num [tabulatedHost])
  have p3 := teleportation_x_of_step tabulatedHost 22 22 0 ⟨300, 200, 12⟩ (-1 / 2) 0
    "clockwise" (13 / 16) 2 (-9947) (by norm_num) (by norm_num)
    (by rw [e _ (by norm_num) (by norm_num)]; norm_num)
    (by rw [e _ (by norm_num) (by norm_num)]; norm_num)
    (by norm_num [tabulatedHost]) (by norm_num [tabulatedHost])
  have p4 := teleportation_x_of_step tabulatedHost 22 22 0 ⟨300, 200, 12⟩ (-1 / 2) 0
    "clockwise" (15 / 16) 3 (-7229) (by norm_num) (by norm_num)
    (by rw [e _ (by norm_num) (by norm_num)]; norm_num)
    (by rw [e _ (by norm_num) (by norm_num)]; norm_num)
    (by norm_num [tabulatedHost]) (by norm_num [tabulatedHost])
  have p5 := teleportation_x_of_step tabulatedHost 22 22 0 ⟨300, 200, 12⟩ (-1 / 2) 0
    "clockwise" (17 / 16) 4 583 (by norm_num) (by norm_num)
    (by rw [e _ (by norm_num) (by norm_num)]; norm_num)
    (by rw [e _ (by norm_num) (by norm_num)]; norm_num)
    (by norm_num [tabulatedHost]) (by norm_num [tabulatedHost])
  have p6 := teleportation_x_of_step tabulatedHost 22 22 0 ⟨300, 200, 12⟩ (-1 / 2) 0
    "clockwise" (19 / 16) 5 7984 (by norm_num) (by norm_num)
    (by rw [e _ (by norm_num) (by norm_num)]; norm_num)
    (by rw [e _ (by norm_num) (by norm_num)]; norm_num)
    (by norm_num [tabulatedHost]) (by norm_num [tabulatedHost])
  have p7 := teleportation_x_of_step tabulatedHost 22 22 0 ⟨300, 200, 12⟩ (-1 / 2) 0
    "clockwise" (21 / 16) 6 9758 (by norm_num) (by norm_num)
    (by rw [e _ (by norm_num) (by norm_num)]; norm_num)
    (by rw [e _ (by norm_num) (by norm_num)]; norm_num)
    (by norm_num [tabulatedHost]) (by norm_num [tabulatedHost])
  have p8 := teleportation_x_of_step tabulatedHost 22 22 0 ⟨300, 200, 12⟩ (-1 / 2) 0
    "clockwise" (23 / 16) 7 4653 (by norm_num) (by norm_num)
    (by rw [e _ (by norm_num) (by norm_num)]; norm_num)
    (by rw [e _ (by norm_num) (by norm_num)]; norm_num)
    (by norm_num [tabulatedHost]) (by norm_num [tabulatedHost])
  refine ⟨?_, ?_, ?_⟩
  · intro t ht
    simp only [List.mem_cons, List.mem_singleton, List.not_mem_nil, or_false] at ht
    rcases ht with h | h | h | h | h | h | h | h | h <;> rw [h] <;> norm_num
  · simp only [List.map_cons, List.map_nil, p0, p1, p2, p3, p4, p5, p6, p7, p8]
    norm_num [tabulatedHost, CHAR_SIZE]
  · simp only [List.nodup_cons, List.mem_cons, List.mem_singleton, List.not_mem_nil,
      JSNumber.num.injEq, List.nodup_nil, or_false, not_or, and_true]
    norm_num

/-- C22: the `"teleportation"` path is piecewise constant over 8 jumps.  For every box,
index, direction and phase `≥ 0` (the callers pass phases of `[0, 1)`), and for all
`t1, t2 ≥ 0` whose transformed times `e1 = applyDirection(t1, phase, direction)` and
`e2 = applyDirection(t2, phase, direction)` fall in the same eighth of the period
(`floor(8·e1) mod 8 = floor(8·e2) mod 8`), the path returns the identical point at `t1` and
`t2`; the same holds when the two values of the code's
`Math.floor(effectiveT * 8) % 8` agree; hence there are eight points among which the path
stays at every `t ≥ 0`: it takes at most 8 distinct positions. -/
theorem teleportation_piecewise_constant (M : HostMath) (centerX centerY size : ℚ)
    (box : Box) (phase : ℚ) (index : Nat) (direction : String) (hphase : 0 ≤ phase) :
    (∀ t1 t2 : ℚ, 0 ≤ t1 → 0 ≤ t2 →
      ⌊applyDirection t1 phase direction * 8⌋ % 8
        = ⌊applyDirection t2 phase direction * 8⌋ % 8 →
      getPathByType M "teleportation" centerX centerY size box phase index direction t1
        = getPathByType M "teleportation" centerX centerY size box phase index direction t2) ∧
    (∀ t1 t2 : ℚ, 0 ≤ t1 → 0 ≤ t2 →
      fmod (⌊applyDirection t1 phase direction * 8⌋ : ℚ) 8
        = fmod (⌊applyDirection t2 phase direction * 8⌋ : ℚ) 8 →
      getPathByType M "teleportation" centerX centerY size box phase index direction t1
        = getPathByType M "teleportation" centerX centerY size box phase index direction t2) ∧
    (∃ positions : List JSPoint, positions.length = 8 ∧
      ∀ t : ℚ, 0 ≤ t →
        getPathByType M "teleportation" centerX centerY size box phase index direction t
          ∈ positions) := by
  obtain ⟨h1, h2, positions, hlen, hmem⟩ :=
    teleportation_constant_on_steps M centerX centerY size box phase index direction
  refine ⟨?_, ?_, positions, hlen, ?_⟩
  · intro t1 t2 ht1 ht2 h
    exact h2 t1 t2 (add_nonneg ht1 hphase) (add_nonneg ht2 hphase) h
  · intro t1 t2 _ _ h
    exact h1 t1 t2 h
  · intro t ht
    exact hmem t (add_nonneg ht hphase)

/-- Witness for C22: phase `1/4`, the times `1/16` and `1/16 + 1`, which are in the same
eighth of the period. -/
theorem teleportation_piecewise_constant_witness :
    (0 : ℚ) ≤ 1 / 4 ∧ (0 : ℚ) ≤ 1 / 16 ∧ (0 : ℚ) ≤ 1 / 16 + 1 ∧
    ⌊applyDirection (1 / 16) (1 / 4) "clockwise" * 8⌋ % 8
      = ⌊applyDirection (1 / 16 + 1) (1 / 4) "clockwise" * 8⌋ % 8 ∧
    getPathByType sampleHost "teleportation" 50 60 30 ⟨300, 200, 12⟩ (1 / 4) 0 "clockwise"
        (1 / 16)
      = getPathByType sampleHost "teleportation" 50 60 30 ⟨300, 200, 12⟩ (1 / 4) 0
          "clockwise" (1 / 16 + 1) :=
  ⟨by norm_num, by norm_num, by norm_num,
    by rw [applyDirection_add_one (1 / 16) (1 / 4) "clockwise" (by norm_num)],
    (teleportation_piecewise_constant sampleHost 50 60 30 ⟨300, 200, 12⟩ (1 / 4) 0
      "clockwise" (by norm_num)).1 (1 / 16) (1 / 16 + 1) (by norm_num) (by norm_num)
      (by rw [applyDirection_add_one (1 / 16) (1 / 4) "clockwise" (by norm_num)])⟩

end MovementCaptcha
